import Mathlib

/-!
# Verification of the sales-protocol evaluator/judge scan engine

Shallow embedding of the core of `src/dialogs` (schema factory, evidence
contract validation, scan orchestration, metrics, canonical-run selection,
heatmap ranking) together with proofs about the embedded definitions.

Python strings are modelled as `List Char` where substring/strip semantics
matter, and as Lean `String` where only equality and lexicographic comparison
are used.  Python floats are modelled as exact rationals (`ℚ`): every ratio in
scope is a quotient of small non-negative integer counters.  SQLite tables are
modelled as Lean lists of rows, and the LLM collaborator as an oracle passed
in as a function argument.
-/

namespace SalesProtocol

/-! ## Text primitives: Python `str.strip` and the `in` substring test -/

/-- Whitespace recognizer used by the model of Python `str.strip()`. -/
def isPySpace (c : Char) : Bool :=
  c == ' ' || c == '\t' || c == '\n' || c == '\r' || c == '\x0b' || c == '\x0c'

/-- Model of Python `str.strip()`: drop whitespace from both ends. -/
def pyStrip (s : List Char) : List Char :=
  ((s.dropWhile isPySpace).reverse.dropWhile isPySpace).reverse

/-- Predicate `isPrefOf n h` is true when `n` occurs at the start of `h`. -/
def isPrefOf : List Char → List Char → Bool
  | [], _ => true
  | _ :: _, [] => false
  | a :: as, b :: bs => a == b && isPrefOf as bs

/-- Model of Python `needle in haystack` for strings: contiguous substring. -/
def isSubOf (needle : List Char) : List Char → Bool
  | [] => needle.isEmpty
  | b :: bs => isPrefOf needle (b :: bs) || isSubOf needle bs

/-- Model of `str.strip()` lifted to Lean `String`s. -/
def pyTrim (s : String) : String := String.mk (pyStrip s.toList)

/-! ## `models.py`: per-rule verdict payloads and their pydantic validation -/

/-- The fixed `ReasonCode` literal enumeration of `models.py`. -/
def reasonCodes : List String :=
  ["greeting_present", "greeting_missing", "greeting_late",
   "next_step_present", "next_step_missing", "cta_without_next_step",
   "empathy_acknowledged", "courtesy_without_empathy", "informational_without_empathy"]

/-- One evaluator verdict (`RuleEvaluation` in `models.py`).  `confidence` is a
rational standing for the float field; texts are `List Char`. -/
structure RuleEvaluation where
  hit : Bool
  confidence : ℚ
  reason_code : String
  reason : List Char
  evidence_quote : List Char
  evidence_message_id : Option Int
  evidence_message_order : Option Int
deriving Repr, DecidableEq

/-- One judge verdict (`RuleJudgeEvaluation` in `models.py`). -/
structure RuleJudgeEvaluation where
  expected_hit : Bool
  label : Bool
  confidence : ℚ
  rationale : List Char
deriving Repr, DecidableEq

/-- Pydantic per-field constraints of `RuleEvaluation`: `confidence ∈ [0,1]`,
`reason_code` drawn from the literal enumeration, both anchor ids `≥ 1` when
present. -/
def ruleEvaluationFieldsOk (r : RuleEvaluation) : Bool :=
  decide (0 ≤ r.confidence) && decide (r.confidence ≤ 1)
    && reasonCodes.contains r.reason_code
    && (match r.evidence_message_id with | none => true | some i => decide (1 ≤ i))
    && (match r.evidence_message_order with | none => true | some i => decide (1 ≤ i))

/-- The `validate_evidence_contract` model-validator of `RuleEvaluation`:
`hit=true` requires a non-blank quote and both anchors; `hit=false` requires
both anchors to be null (`true` = validator passes, `false` = it raises). -/
def validate_evidence_contract (r : RuleEvaluation) : Bool :=
  if r.hit then
    !(pyStrip r.evidence_quote).isEmpty
      && r.evidence_message_id.isSome && r.evidence_message_order.isSome
  else
    r.evidence_message_id.isNone && r.evidence_message_order.isNone

/-- A `RuleEvaluation` payload is accepted by pydantic validation when the
field constraints hold and the model validator does not raise. -/
def rule_evaluation_accepted (r : RuleEvaluation) : Bool :=
  ruleEvaluationFieldsOk r && validate_evidence_contract r

/-! ## `judge/contracts.py` and `judge/schema_factory.py`: bundled contracts -/

/-- Model of `normalized_rule_keys`: trim every key, drop blank ones, fail on an empty
or duplicated result (`ValueError` modelled as `Except.error`). -/
def normalized_rule_keys (rule_keys : List String) : Except String (List String) :=
  let keys := (rule_keys.map pyTrim).filter (fun k => !k.isEmpty)
  if keys.isEmpty then
    .error "rule_keys must not be empty"
  else if keys.any (fun k => decide (1 < keys.count k)) then
    .error "rule_keys contain duplicates"
  else
    .ok keys

/-- Which per-rule sub-model a bundled contract embeds. -/
inductive BundleKind where
  | evaluator
  | judge
deriving Repr, DecidableEq

/-- The shape of a generated bundled pydantic model, at the level the claims
talk about: its declared field names (one per rule key, in order), its
required-field list, and whether undeclared fields are accepted
(`extra="forbid"` / `additionalProperties=false` makes this `false`). -/
structure BundleContract where
  kind : BundleKind
  fields : List String
  required : List String
  additionalAllowed : Bool
deriving Repr, DecidableEq

/-- Model of `_build_bundle_model_cached`: normalize the keys and create a strict model
with one required field per key and no extra fields allowed. -/
def build_bundle_model_cached (kind : BundleKind) (rule_keys : List String) :
    Except String BundleContract :=
  match normalized_rule_keys rule_keys with
  | .error e => .error e
  | .ok keys =>
    .ok { kind := kind, fields := keys, required := keys, additionalAllowed := false }

/-- Model of `build_evaluator_bundle_model` (normalizes, then calls the cached builder,
which normalizes again — exactly as the source does). -/
def build_evaluator_bundle_model (rule_keys : List String) : Except String BundleContract :=
  match normalized_rule_keys rule_keys with
  | .error e => .error e
  | .ok keys => build_bundle_model_cached .evaluator keys

/-- Model of `build_judge_bundle_model`. -/
def build_judge_bundle_model (rule_keys : List String) : Except String BundleContract :=
  match normalized_rule_keys rule_keys with
  | .error e => .error e
  | .ok keys => build_bundle_model_cached .judge keys

/-- Strict pydantic validation of a JSON object (a key/value list) against a
bundled contract: every required field must be present, undeclared fields are
rejected unless `additionalAllowed`, and each declared field's value must pass
the per-rule validator `valueOk`. -/
def bundle_accepts {α : Type} (c : BundleContract) (valueOk : α → Bool)
    (payload : List (String × α)) : Bool :=
  c.required.all (fun k => (payload.map Prod.fst).contains k)
    && payload.all (fun kv => c.fields.contains kv.1 || c.additionalAllowed)
    && payload.all (fun kv => !c.fields.contains kv.1 || valueOk kv.2)

/-! ## `sgr_core.py`: rule registry, seller catalog, greeting window -/

/-- Current metrics-version tag. -/
def METRICS_VERSION : String := "v5_dialog_level_bundle"

/-- A business rule (`RuleCard`).  The Russian prompt-text fields
(`title_ru`, `what_to_check`, `why_it_matters`) only feed prompt rendering and
are omitted from the embedding. -/
structure RuleCard where
  key : String
  evaluation_scope : String
  seller_window_max : Option Int
  hit_policy : String
deriving Repr, DecidableEq

/-- The fixed registry `RULES`. -/
def RULES : List RuleCard :=
  [{ key := "greeting", evaluation_scope := "conversation",
     seller_window_max := some 3, hit_policy := "any_occurrence" },
   { key := "upsell", evaluation_scope := "conversation",
     seller_window_max := none, hit_policy := "any_occurrence" },
   { key := "empathy", evaluation_scope := "conversation",
     seller_window_max := none, hit_policy := "any_occurrence" }]

/-- Model of `all_rules()`. -/
def all_rules : List RuleCard := RULES

/-- A message row from the `messages` table. -/
structure Msg where
  message_id : Int
  message_order : Int
  speaker_label : String
  text : List Char
deriving Repr, DecidableEq

/-- Model of `is_seller_message`. -/
def is_seller_message (speaker_label : String) : Bool := speaker_label == "Sales Rep"

/-- Ordering of messages by `message_order` used by `_ordered_messages`. -/
def msgLE (a b : Msg) : Prop := a.message_order ≤ b.message_order

instance : DecidableRel msgLE := fun a b => Int.decLe a.message_order b.message_order

/-- Model of `_ordered_messages`: Python's stable `sorted` by `message_order`
(insertion sort with a non-strict comparison is stable in the same way). -/
def ordered_messages (msgs : List Msg) : List Msg := List.insertionSort msgLE msgs

/-- Model of `SellerMessageRef`. -/
structure SellerMessageRef where
  message_id : Int
  message_order : Int
  text : List Char
deriving Repr, DecidableEq

/-- Model of `seller_message_refs`: the ordered seller messages of one conversation. -/
def seller_message_refs (msgs : List Msg) : List SellerMessageRef :=
  ((ordered_messages msgs).filter (fun m => is_seller_message m.speaker_label)).map
    (fun m => ⟨m.message_id, m.message_order, m.text⟩)

/-- Model of `greeting_window_refs`: the first `max(0, max_messages)` seller messages. -/
def greeting_window_refs (msgs : List Msg) (max_messages : Int) : List SellerMessageRef :=
  (seller_message_refs msgs).take (max 0 max_messages).toNat

/-! ## The per-rule evidence check of `run_scan` (lines 311–349) -/

/-- The `seller_by_id` dict is built by a comprehension, so a later catalog
entry with the same id overwrites an earlier one: lookup resolves to the last
match. -/
def sellerById (catalog : List SellerMessageRef) (mid : Int) : Option SellerMessageRef :=
  catalog.reverse.find? (fun item => item.message_id == mid)

/-- Ids of the greeting window derived from the seller catalog
(`greeting_window_ids` in `run_scan`; `greeting_window_refs` of the same
conversation is by definition the `take` of its seller catalog). -/
def greetingWindowIds (catalog : List SellerMessageRef) (greeting_window_max : Int) : List Int :=
  (catalog.take (max 0 greeting_window_max).toNat).map (fun item => item.message_id)

/-- The Evidence Contract Validator: the body of the per-rule evidence check
in `run_scan` for a verdict with `hit=true`, returning `.ok` where the code
falls through and `.error` (with the message head) where it raises. -/
def validate_evidence (rule_key : String) (r : RuleEvaluation)
    (seller_catalog : List SellerMessageRef) (greeting_window_max : Int) :
    Except String Unit :=
  let evidence_quote := pyStrip r.evidence_quote
  match r.evidence_message_id, r.evidence_message_order with
  | none, _ => .error "schema_error evaluator evidence anchor is missing"
  | some _, none => .error "schema_error evaluator evidence anchor is missing"
  | some mid, some mor =>
    match sellerById seller_catalog mid with
    | none => .error "schema_error evaluator evidence_message_id is not seller message"
    | some anchor =>
      if anchor.message_order ≠ mor then
        .error "schema_error evaluator evidence_message_order mismatch"
      else if evidence_quote.isEmpty || !isSubOf evidence_quote anchor.text then
        .error "schema_error evaluator evidence_quote is not substring of seller_text"
      else if rule_key == "greeting"
          && !((greetingWindowIds seller_catalog greeting_window_max).contains mid) then
        .error "schema_error evaluator greeting evidence is outside first seller window"
      else
        .ok ()

/-! ## `infrastructure/scan_runner.py`: persistence rows, metrics, run state -/

/-- Model of `_safe_div`: Python `a / b if b else 0.0`, with floats as rationals. -/
def safe_div (a b : ℚ) : ℚ := if b ≠ 0 then a / b else 0

/-- One `scan_results` row as inserted by `run_scan` (timestamps omitted).
`judge_label` is nullable in the schema, hence `Option`; the fixed pipeline
always stores `some`. -/
structure ResultRow where
  run_id : String
  conversation_id : String
  rule_key : String
  eval_hit : Bool
  eval_confidence : ℚ
  eval_reason_code : String
  eval_reason : List Char
  evidence_quote : List Char
  evidence_message_id : Option Int
  evidence_message_order : Option Int
  judge_expected_hit : Bool
  judge_label : Option Bool
  judge_confidence : ℚ
  judge_rationale : List Char
deriving Repr, DecidableEq

/-- One `scan_metrics` row (timestamps omitted). -/
structure MetricRow where
  run_id : String
  rule_key : String
  eval_total : Nat
  eval_true : Nat
  evaluator_hit_rate : ℚ
  judge_correctness : ℚ
  judge_coverage : ℚ
  judged_total : Nat
  judge_true : Nat
  judge_false : Nat
deriving Repr, DecidableEq

/-- The aggregate SELECT plus ratio computation of `_compute_metrics` for one
(run, rule) over the `scan_results` table. -/
def metricsForRows (run_id rule_key : String) (rows : List ResultRow) : MetricRow :=
  let sel := rows.filter (fun row => row.run_id == run_id && row.rule_key == rule_key)
  let eval_total := sel.length
  let eval_true := sel.countP (fun row => row.eval_hit)
  let judge_true := sel.countP (fun row => row.judge_label == some true)
  let judge_false := sel.countP (fun row => row.judge_label == some false)
  let judged_total := sel.countP (fun row => row.judge_label.isSome)
  { run_id := run_id, rule_key := rule_key,
    eval_total := eval_total, eval_true := eval_true,
    evaluator_hit_rate := safe_div (eval_true : ℚ) (eval_total : ℚ),
    judge_correctness := safe_div (judge_true : ℚ) (judged_total : ℚ),
    judge_coverage := safe_div (judged_total : ℚ) (eval_total : ℚ),
    judged_total := judged_total, judge_true := judge_true, judge_false := judge_false }

/-- The mutable counters dict of `run_scan`. -/
structure Counters where
  evaluated_conversations : Nat := 0
  skipped_conversations_without_seller : Nat := 0
  processed : Nat := 0
  inserted : Nat := 0
  judged : Nat := 0
  schema_errors : Nat := 0
  non_schema_errors : Nat := 0
deriving Repr, DecidableEq

/-- The run `summary_json`, restricted to the keys the claims observe.
Counter keys default to `0` standing for keys not yet written; optional
fields model keys absent from the JSON object. -/
structure RunSummary where
  metrics_version : Option String := none
  evaluated_conversations : Nat := 0
  skipped_conversations_without_seller : Nat := 0
  processed : Nat := 0
  inserted : Nat := 0
  judged : Nat := 0
  schema_errors : Nat := 0
  non_schema_errors : Nat := 0
  judge_coverage : Option ℚ := none
  canonical_run_id : Option String := none
  error : Option String := none
deriving Repr, DecidableEq

/-- The summary dict as first built by `run_scan` (selection counts omitted);
`summary_json` in the freshly inserted row is still `'{}'`, modelled by the
all-default `RunSummary`. -/
def baseSummary : RunSummary := { metrics_version := some METRICS_VERSION }

/-- Model of `summary.update(counters)`. -/
def summaryWith (c : Counters) (base : RunSummary) : RunSummary :=
  { base with
    evaluated_conversations := c.evaluated_conversations,
    skipped_conversations_without_seller := c.skipped_conversations_without_seller,
    processed := c.processed, inserted := c.inserted, judged := c.judged,
    schema_errors := c.schema_errors, non_schema_errors := c.non_schema_errors }

/-- One `scan_runs` row (range/selection columns and timestamps omitted). -/
structure RunRow where
  run_id : String
  model : String
  status : String
  started_at_utc : String := ""
  summary : RunSummary
deriving Repr, DecidableEq

/-- One `llm_calls` audit row, restricted to the identifying columns. -/
structure CallLogRow where
  run_id : String
  phase : String
  rule_key : String
  conversation_id : String
deriving Repr, DecidableEq

/-- The SQLite database as seen by the scan engine. -/
structure ScanState where
  runs : List RunRow
  results : List ResultRow
  metrics : List MetricRow
  llm_calls : List CallLogRow
  app_state : List (String × String)
deriving Repr

/-- Model of `_compute_metrics`: delete this run's metric rows, then insert one row
per registry rule. -/
def compute_metrics (run_id : String) (st : ScanState) : ScanState :=
  { st with metrics :=
      st.metrics.filter (fun m => m.run_id ≠ run_id)
        ++ all_rules.map (fun rule => metricsForRows run_id rule.key st.results) }

/-- Model of `db.get_state`. -/
def get_state (app : List (String × String)) (key : String) : Option String :=
  (app.find? (fun kv => kv.1 == key)).map Prod.snd

/-- Model of `db.set_state` (INSERT … ON CONFLICT DO UPDATE). -/
def set_state (app : List (String × String)) (key value : String) : List (String × String) :=
  if app.any (fun kv => kv.1 == key) then
    app.map (fun kv => if kv.1 == key then (key, value) else kv)
  else
    app ++ [(key, value)]

/-- Model of `_run_metrics_version`: the metrics-version tag stored in a run's summary
(`None` for a falsy run id, a missing row, or a null/empty tag). -/
def run_metrics_version (runs : List RunRow) (run_id : Option String) : Option String :=
  match run_id with
  | none => none
  | some rid =>
    if rid == "" then none
    else
      match runs.find? (fun r => r.run_id == rid) with
      | none => none
      | some row =>
        match row.summary.metrics_version with
        | none => none
        | some v => if v == "" then none else some v

/-- Model of `_insert_run`: the run row starts in status `running` with summary `{}`. -/
def insert_run (st : ScanState) (run_id model : String) : ScanState :=
  { st with runs := st.runs ++ [{ run_id := run_id, model := model,
                                  status := "running", summary := {} }] }

/-- Model of `_finish_run`: UPDATE status/summary WHERE run_id matches. -/
def finish_run (st : ScanState) (run_id status : String) (summary : RunSummary) : ScanState :=
  { st with runs := st.runs.map (fun r =>
      if r.run_id == run_id then { r with status := status, summary := summary } else r) }

/-! ## The LLM collaborator and the scan policy -/

/-- Outcome of one structured-output LLM call as surfaced by
`LLMClient.call_json_schema`: either an error message classified as
schema/non-schema, or a payload that passed schema validation. -/
inductive CallOutcome (α : Type) where
  | failure (is_schema_error : Bool) (error_message : String)
  | success (payload : α)

/-- A validated bundled evaluator payload assigns one `RuleEvaluation` to
every rule key (`evaluator_results_by_rule`). -/
abbrev EvalBundle := String → RuleEvaluation

/-- A validated bundled judge payload (`judge_results_by_rule`). -/
abbrev JudgeBundle := String → RuleJudgeEvaluation

/-- The external LLM collaborator, abstracted over prompt text: one evaluator
and one judge response per conversation id. -/
structure LLMOracle where
  evalResp : String → CallOutcome EvalBundle
  judgeResp : String → CallOutcome JudgeBundle

/-- Modelled from the spec: `fixed_scan_policy` is imported by the scan
runner from `sgr_core` but is missing from the source tree.  Per the spec the
fixed production policy uses bundled calls, full judge coverage, full context
and full trace (§4.3 and the "в v3 всегда full" schema-dictionary notes), and
the greeting window covers the first 3 seller messages (the greeting
`RuleCard`'s `seller_window_max = 3` and §8's `seller_window_max=3` example). -/
structure ScanPolicy where
  bundle_rules : Bool
  judge_mode : String
  context_mode : String
  llm_trace : String
  greeting_window_max : Int

/-- Modelled from the spec: the fixed production policy values. -/
def fixed_scan_policy : ScanPolicy :=
  { bundle_rules := true, judge_mode := "full", context_mode := "full",
    llm_trace := "full", greeting_window_max := 3 }

/-! ## The `run_scan` orchestration -/

/-- One selected conversation with its messages. -/
structure Conv where
  conversation_id : String
  msgs : List Msg

/-- The audit row `call_json_schema` appends for one bundled call. -/
def logCall (st : ScanState) (run_id phase conversation_id : String) : ScanState :=
  { st with llm_calls := st.llm_calls
      ++ [{ run_id := run_id, phase := phase, rule_key := "bundle",
            conversation_id := conversation_id }] }

/-- The `for rule in rules` evidence loop of `run_scan`: validate every
`hit=true` verdict in registry order, stopping at the first failure exactly
where the code raises. -/
def validateEvidenceForRules (rules : List RuleCard) (evalByRule : EvalBundle)
    (catalog : List SellerMessageRef) (w : Int) : Except String Unit :=
  match rules with
  | [] => .ok ()
  | rule :: rest =>
    let res := evalByRule rule.key
    if res.hit then
      match validate_evidence rule.key res catalog w with
      | .error e => .error e
      | .ok () => validateEvidenceForRules rest evalByRule catalog w
    else
      validateEvidenceForRules rest evalByRule catalog w

/-- One persisted `scan_results` row for one rule. -/
def mkResultRow (run_id conversation_id rule_key : String)
    (e : RuleEvaluation) (j : RuleJudgeEvaluation) : ResultRow :=
  { run_id := run_id, conversation_id := conversation_id, rule_key := rule_key,
    eval_hit := e.hit, eval_confidence := e.confidence,
    eval_reason_code := e.reason_code, eval_reason := e.reason,
    evidence_quote := e.evidence_quote,
    evidence_message_id := e.evidence_message_id,
    evidence_message_order := e.evidence_message_order,
    judge_expected_hit := j.expected_hit, judge_label := some j.label,
    judge_confidence := j.confidence, judge_rationale := j.rationale }

/-- The per-conversation body of `run_scan`'s main loop.  `none` in the first
component means the conversation was processed (or skipped) without raising;
`some e` models the exception text of the raise that aborts the loop.
Counter increments happen exactly where the code performs them, so the
counters are accurate on both outcomes. -/
def processConv (oracle : LLMOracle) (run_id : String) (conv : Conv)
    (c : Counters) (st : ScanState) : Option String × Counters × ScanState :=
  let seller_catalog := seller_message_refs conv.msgs
  if seller_catalog.isEmpty then
    (none, { c with skipped_conversations_without_seller :=
               c.skipped_conversations_without_seller + 1 }, st)
  else
    let c := { c with evaluated_conversations := c.evaluated_conversations + 1,
                      processed := c.processed + all_rules.length }
    let st := logCall st run_id "evaluator" conv.conversation_id
    match oracle.evalResp conv.conversation_id with
    | .failure isSchema msg =>
      let c := if isSchema then { c with schema_errors := c.schema_errors + 1 }
               else { c with non_schema_errors := c.non_schema_errors + 1 }
      (some ((if isSchema then "schema_error" else "live_error")
               ++ " phase=evaluator: " ++ msg), c, st)
    | .success evalByRule =>
      match validateEvidenceForRules all_rules evalByRule seller_catalog
          fixed_scan_policy.greeting_window_max with
      | .error e => (some e, { c with schema_errors := c.schema_errors + 1 }, st)
      | .ok () =>
        let st := logCall st run_id "judge" conv.conversation_id
        match oracle.judgeResp conv.conversation_id with
        | .failure isSchema msg =>
          let c := if isSchema then { c with schema_errors := c.schema_errors + 1 }
                   else { c with non_schema_errors := c.non_schema_errors + 1 }
          (some ((if isSchema then "schema_error" else "live_error")
                   ++ " phase=judge: " ++ msg), c, st)
        | .success judgeByRule =>
          let rows := all_rules.map (fun rule =>
            mkResultRow run_id conv.conversation_id rule.key
              (evalByRule rule.key) (judgeByRule rule.key))
          let st := { st with results := st.results ++ rows }
          let c := { c with inserted := c.inserted + all_rules.length,
                            judged := c.judged + all_rules.length }
          (none, c, st)

/-- The `for conversation_id in conversation_ids` loop. -/
def scanConvsLoop (oracle : LLMOracle) (run_id : String) :
    List Conv → Counters → ScanState → Option String × Counters × ScanState
  | [], c, st => (none, c, st)
  | conv :: rest, c, st =>
    match processConv oracle run_id conv c st with
    | (some e, c', st') => (some e, c', st')
    | (none, c', st') => scanConvsLoop oracle run_id rest c' st'

/-- Model of `run_scan` from the point where the run row is inserted (range selection
and the live-client precondition happen before any run row exists and are out
of scope of the run-lifecycle claims).  The `try/except/finally` shape is made
explicit: every path ends in exactly one `finish_run`. -/
def run_scan (oracle : LLMOracle) (run_id model : String) (convs : List Conv)
    (st0 : ScanState) : Except String String × ScanState :=
  let st1 := insert_run st0 run_id model
  match scanConvsLoop oracle run_id convs {} st1 with
  | (some e, c, st2) =>
    let summary := { summaryWith c baseSummary with error := some e }
    (.error e, finish_run st2 run_id "failed" summary)
  | (none, c, st2) =>
    let st3 := compute_metrics run_id st2
    if c.inserted ≠ c.judged then
      let e := "judge coverage must be 1.0 in fixed mode"
      let summary := { summaryWith c baseSummary with error := some e }
      (.error e, finish_run st3 run_id "failed" summary)
    else
      let canonical0 := get_state st3.app_state "canonical_run_id"
      let canonicalVersion := run_metrics_version st3.runs canonical0
      let pair :=
        if canonical0 = none ∨ canonicalVersion ≠ some METRICS_VERSION then
          (run_id, set_state st3.app_state "canonical_run_id" run_id)
        else
          (canonical0.getD run_id, st3.app_state)
      let st4 := { st3 with app_state := pair.2 }
      let summary := { summaryWith c baseSummary with
                       judge_coverage := some (safe_div (c.judged : ℚ) (c.inserted : ℚ)),
                       canonical_run_id := some pair.1 }
      (.ok run_id, finish_run st4 run_id "success" summary)

/-! ## `infrastructure/reporting.py`: canonical-run selection and heatmap -/

/-- Note text returned when the report baseline switches to an earlier
version-compatible run. -/
def switchedNote : String := "canonical run switched to version-compatible baseline"

/-- Note text returned when no version-compatible run exists at all. -/
def fellBackNote : String := "canonical run fell back to current run due to metrics version mismatch"

/-- Predicate of the baseline query: a successful run whose stored summary
tag equals the requested metrics version. -/
def matchesVersion (v : String) (r : RunRow) : Bool :=
  r.status == "success" && r.summary.metrics_version == some v

/-- Model of `ORDER BY started_at_utc ASC LIMIT 1`: the row with the smallest
timestamp among those kept (first in table order on ties). -/
def minByStarted (l : List RunRow) : Option RunRow :=
  l.foldl
    (fun acc r =>
      match acc with
      | none => some r
      | some m => if r.started_at_utc < m.started_at_utc then some r else some m)
    none

/-- The baseline query of `_canonical_run_for_version`. -/
def earliest_matching_run (runs : List RunRow) (metrics_version : String) : Option RunRow :=
  minByStarted (runs.filter (matchesVersion metrics_version))

/-- The fallback branch of `_canonical_run_for_version` (after the pinned
canonical run was rejected). -/
def canonical_fallback (runs : List RunRow) (run_id metrics_version : String) :
    String × Option String :=
  match earliest_matching_run runs metrics_version with
  | some row => (row.run_id, some switchedNote)
  | none => (run_id, some fellBackNote)

/-- Model of `_canonical_run_for_version`: keep the pinned canonical run when its tag
matches, otherwise fall back. -/
def canonical_run_for_version (st : ScanState) (run_id metrics_version : String) :
    String × Option String :=
  match get_state st.app_state "canonical_run_id" with
  | some c =>
    if c ≠ "" ∧ run_metrics_version st.runs (some c) = some metrics_version then (c, none)
    else canonical_fallback st.runs run_id metrics_version
  | none => canonical_fallback st.runs run_id metrics_version

/-- One emitted worst-cell entry (the dict built by `_worst_heatmap_cells`). -/
structure HeatCell where
  conversation_id : String
  rule_key : String
  score : ℚ
  judged_total : Int
deriving Repr, DecidableEq

/-- The sort key of the ranking: Python sorts the tuples
`(score, -judged, conversation_id, rule_key, judged)` by their first four
components; the last component is determined by the second, so the record and
this lexicographic key carry the same information. -/
def cellKey (c : HeatCell) : Lex (ℚ × Lex (Int × Lex (String × String))) :=
  toLex (c.score, toLex (-c.judged_total, toLex (c.conversation_id, c.rule_key)))

/-- The ranking order: ascending score, then descending judged count, then
conversation id, then rule key. -/
def cellLE (a b : HeatCell) : Prop := cellKey a ≤ cellKey b

instance : DecidableRel cellLE :=
  fun a b => inferInstanceAs (Decidable (cellKey a ≤ cellKey b))

/-- The ranking order spelled out: ascending score, then descending judged
count, then conversation id, then rule key (the claim's description). -/
def worstCellOrder (a b : HeatCell) : Prop :=
  a.score < b.score ∨ (a.score = b.score ∧
    (b.judged_total < a.judged_total ∨ (a.judged_total = b.judged_total ∧
      (a.conversation_id < b.conversation_id ∨ (a.conversation_id = b.conversation_id ∧
        a.rule_key ≤ b.rule_key)))))

instance : IsTotal HeatCell cellLE :=
  ⟨fun a b => le_total (cellKey a) (cellKey b)⟩

instance : IsTrans HeatCell cellLE :=
  ⟨fun _ _ _ hab hbc => le_trans hab hbc⟩

instance : IsAntisymm HeatCell cellLE := by
  refine ⟨fun a b hab hba => ?_⟩
  have hk : cellKey a = cellKey b := le_antisymm hab hba
  have h1 : a.score = b.score := congrArg (fun p => (ofLex p).1) hk
  have hrest : (ofLex (cellKey a)).2 = (ofLex (cellKey b)).2 :=
    congrArg (fun p => (ofLex p).2) hk
  have h2 : -a.judged_total = -b.judged_total := congrArg (fun p => (ofLex p).1) hrest
  have hrest2 : (ofLex ((ofLex (cellKey a)).2)).2 = (ofLex ((ofLex (cellKey b)).2)).2 :=
    congrArg (fun p => (ofLex p).2) hrest
  have h3 : a.conversation_id = b.conversation_id :=
    congrArg (fun p => (ofLex p).1) hrest2
  have h4 : a.rule_key = b.rule_key := congrArg (fun p => (ofLex p).2) hrest2
  have h2' : a.judged_total = b.judged_total := neg_inj.mp h2
  cases a
  cases b
  simp_all

/-- The eligible-cell list `ranked` built by `_worst_heatmap_cells` before
sorting: row-major enumeration of the cells, keeping those with a positive
judged count and a non-null score. -/
def rankedCells (conversation_ids rule_keys : List String)
    (scores : List (List (Option ℚ))) (judged_totals : List (List Int)) : List HeatCell :=
  (conversation_ids.zip (scores.zip judged_totals)).flatMap fun rowT =>
    (rule_keys.zip (rowT.2.1.zip rowT.2.2)).filterMap fun colT =>
      if colT.2.2 ≤ 0 then none
      else
        match colT.2.1 with
        | none => none
        | some s =>
          some { conversation_id := rowT.1, rule_key := colT.1,
                 score := s, judged_total := colT.2.2 }

/-- Model of `_worst_heatmap_cells`: sort the eligible cells by the ranking order and
keep the first `max(0, limit)`. -/
def worst_heatmap_cells (conversation_ids rule_keys : List String)
    (scores : List (List (Option ℚ))) (judged_totals : List (List Int))
    (limit : Int) : List HeatCell :=
  (List.insertionSort cellLE
      (rankedCells conversation_ids rule_keys scores judged_totals)).take
    (max 0 limit).toNat

/-! ## Observation predicates used by the theorem statements -/

/-- Audit rows of one run's bundled evaluator call for one conversation. -/
def isEvalCall (run_id conversation_id : String) (row : CallLogRow) : Bool :=
  row.run_id == run_id && row.phase == "evaluator" && row.conversation_id == conversation_id

/-- Audit rows of one run's bundled judge call for one conversation. -/
def isJudgeCall (run_id conversation_id : String) (row : CallLogRow) : Bool :=
  row.run_id == run_id && row.phase == "judge" && row.conversation_id == conversation_id

/-- Result rows of one run for one conversation. -/
def isConvResult (run_id conversation_id : String) (row : ResultRow) : Bool :=
  row.run_id == run_id && row.conversation_id == conversation_id

/-- The pinned canonical run is absent or rejected by the version guard of
`_canonical_run_for_version`. -/
def pinnedRejected (st : ScanState) (metrics_version : String) : Prop :=
  ∀ c, get_state st.app_state "canonical_run_id" = some c →
    (c = "" ∨ run_metrics_version st.runs (some c) ≠ some metrics_version)

/-! ## Concrete demo data used by the witnesses -/

/-- A well-formed positive verdict. -/
def hitVerdictDemo : RuleEvaluation :=
  { hit := true, confidence := 1, reason_code := "greeting_present", reason := [],
    evidence_quote := "Hello".toList, evidence_message_id := some 1,
    evidence_message_order := some 1 }

/-- A well-formed negative verdict. -/
def missVerdictDemo : RuleEvaluation :=
  { hit := false, confidence := 0, reason_code := "greeting_missing", reason := [],
    evidence_quote := [], evidence_message_id := none, evidence_message_order := none }

/-- A judge verdict confirming the evaluator. -/
def judgeVerdictDemo : RuleJudgeEvaluation :=
  { expected_hit := false, label := true, confidence := 1, rationale := [] }

/-- An oracle that always answers with validated negative bundles. -/
def demoOracle : LLMOracle :=
  { evalResp := fun _ => .success (fun _ => missVerdictDemo),
    judgeResp := fun _ => .success (fun _ => judgeVerdictDemo) }

/-- Two conversations: one with a seller message, one without. -/
def demoConvs : List Conv :=
  [⟨"c1", [⟨1, 1, "Sales Rep", "hi there".toList⟩]⟩,
   ⟨"c2", [⟨2, 1, "Customer", "hello".toList⟩]⟩]

/-- A database with no rows at all. -/
def emptyScanState : ScanState := ⟨[], [], [], [], []⟩

/-- A one-message seller catalog. -/
def demoCatalog : List SellerMessageRef := [⟨1, 1, "Hello there".toList⟩]

/-- A database with one successful tagged run pinned as canonical. -/
def demoRunsState : ScanState :=
  ⟨[{ run_id := "r1", model := "m", status := "success", started_at_utc := "2024-01-01",
      summary := { metrics_version := some METRICS_VERSION } }], [], [], [],
   [("canonical_run_id", "r1")]⟩

/-! # Theorems -/

/-! ## Shared helper lemmas -/

lemma pyStrip_nil : pyStrip [] = [] := rfl

/-- The `Counter`-based duplicate detection agrees with `Nodup`. -/
lemma any_count_eq_false_iff (l : List String) :
    (l.any fun k => decide (1 < l.count k)) = false ↔ l.Nodup := by
  rw [List.any_eq_false]
  constructor
  · intro h
    rw [List.nodup_iff_count_le_one]
    intro a
    by_cases ha : a ∈ l
    · have := h a ha
      simpa using this
    · simp [List.count_eq_zero_of_not_mem ha]
  · intro h k hk
    have := List.nodup_iff_count_le_one.mp h k
    simp
    omega

/-- Evaluating `safe_div` on a pair of counters `a ≤ b`: the claimed value on each side
of the zero-denominator split, and the `[0,1]` bounds. -/
lemma safe_div_counter_spec (a b : ℕ) (hab : a ≤ b) :
    ((b : ℚ) ≠ 0 → safe_div (a : ℚ) (b : ℚ) = (a : ℚ) / (b : ℚ)) ∧
    ((b : ℚ) = 0 → safe_div (a : ℚ) (b : ℚ) = 0) ∧
    0 ≤ safe_div (a : ℚ) (b : ℚ) ∧ safe_div (a : ℚ) (b : ℚ) ≤ 1 := by
  unfold safe_div
  by_cases hb : (b : ℚ) = 0
  · simp [hb]
  · have hbpos : 0 < (b : ℚ) := by
      have hb' : b ≠ 0 := by exact_mod_cast hb
      exact_mod_cast Nat.pos_of_ne_zero hb'
    refine ⟨fun _ => by simp [hb], fun h => absurd h hb, ?_, ?_⟩
    · rw [if_pos hb]
      exact div_nonneg (by positivity) hbpos.le
    · rw [if_pos hb, div_le_one hbpos]
      exact_mod_cast hab

/-- Evaluating `safe_div` on a pair of counters `a ≤ b`, stated through the
zero-denominator case split. -/
lemma safe_div_counter_ite (a b : ℕ) (hab : a ≤ b) :
    safe_div (a : ℚ) (b : ℚ) = (if b = 0 then (0 : ℚ) else (a : ℚ) / (b : ℚ)) ∧
    0 ≤ safe_div (a : ℚ) (b : ℚ) ∧ safe_div (a : ℚ) (b : ℚ) ≤ 1 := by
  obtain ⟨h1, h2, h3, h4⟩ := safe_div_counter_spec a b hab
  refine ⟨?_, h3, h4⟩
  by_cases hb : b = 0
  · rw [if_pos hb]
    exact h2 (by exact_mod_cast congrArg (Nat.cast : ℕ → ℚ) hb)
  · rw [if_neg hb]
    exact h1 (by exact_mod_cast hb)

/-! ## C7: metric ratios (`_safe_div` and `_compute_metrics`) -/

/-- C7: for every run, rule and set of result rows, the stored ratios equal
`eval_true/eval_total`, `judge_true/judged_total` and `judged_total/eval_total`
when their denominators are non-zero, equal `0` when the denominator is zero,
and always lie in `[0,1]`. -/
theorem metrics_ratio_contract (run_id rule_key : String) (rows : List ResultRow) :
    let m := metricsForRows run_id rule_key rows
    (m.evaluator_hit_rate
        = if m.eval_total = 0 then (0 : ℚ) else (m.eval_true : ℚ) / (m.eval_total : ℚ)) ∧
    (m.judge_correctness
        = if m.judged_total = 0 then (0 : ℚ) else (m.judge_true : ℚ) / (m.judged_total : ℚ)) ∧
    (m.judge_coverage
        = if m.eval_total = 0 then (0 : ℚ) else (m.judged_total : ℚ) / (m.eval_total : ℚ)) ∧
    (0 ≤ m.evaluator_hit_rate ∧ m.evaluator_hit_rate ≤ 1) ∧
    (0 ≤ m.judge_correctness ∧ m.judge_correctness ≤ 1) ∧
    (0 ≤ m.judge_coverage ∧ m.judge_coverage ≤ 1) := by
  dsimp only [metricsForRows]
  have h1 := safe_div_counter_ite
    ((rows.filter fun row => row.run_id == run_id && row.rule_key == rule_key).countP
      fun row => row.eval_hit)
    (rows.filter fun row => row.run_id == run_id && row.rule_key == rule_key).length
    (List.countP_le_length _)
  have h2 := safe_div_counter_ite
    ((rows.filter fun row => row.run_id == run_id && row.rule_key == rule_key).countP
      fun row => row.judge_label == some true)
    ((rows.filter fun row => row.run_id == run_id && row.rule_key == rule_key).countP
      fun row => row.judge_label.isSome)
    (List.countP_mono_left fun row _ hrow => by
      have : row.judge_label = some true := by simpa using hrow
      simp [this])
  have h3 := safe_div_counter_ite
    ((rows.filter fun row => row.run_id == run_id && row.rule_key == rule_key).countP
      fun row => row.judge_label.isSome)
    (rows.filter fun row => row.run_id == run_id && row.rule_key == rule_key).length
    (List.countP_le_length _)
  exact ⟨h1.1, h2.1, h3.1, h1.2, h2.2, h3.2⟩

/-! ## C6: evidence-field discipline of accepted evaluator verdicts -/

/-- C6 (counterexample to the claim as stated): a negative verdict carrying a
non-empty `evidence_quote` passes payload validation, so "if hit=false then
… evidence_quote is empty" does not hold of the validator. -/
theorem rule_evaluation_quote_free_on_miss :
    rule_evaluation_accepted
      { hit := false, confidence := 1, reason_code := "greeting_missing",
        reason := [], evidence_quote := ['x'],
        evidence_message_id := none, evidence_message_order := none } = true
    ∧ (['x'] : List Char) ≠ [] := by
  exact ⟨by decide, by decide⟩

/-- C6 (amended): an accepted verdict with `hit=true` has a non-empty quote
and both anchor fields present; with `hit=false` both anchor fields are null
(the quote is unconstrained on a miss). -/
theorem accepted_verdict_evidence_discipline (r : RuleEvaluation)
    (h : rule_evaluation_accepted r = true) :
    (r.hit = true → r.evidence_quote ≠ [] ∧
      r.evidence_message_id.isSome = true ∧ r.evidence_message_order.isSome = true) ∧
    (r.hit = false → r.evidence_message_id = none ∧ r.evidence_message_order = none) := by
  unfold rule_evaluation_accepted at h
  simp only [Bool.and_eq_true] at h
  have hv : validate_evidence_contract r = true := h.2
  unfold validate_evidence_contract at hv
  constructor
  · intro hhit
    rw [hhit, if_pos rfl] at hv
    simp only [Bool.and_eq_true] at hv
    obtain ⟨⟨hq, hid⟩, hord⟩ := hv
    refine ⟨?_, hid, hord⟩
    intro hnil
    rw [hnil, pyStrip_nil] at hq
    simp at hq
  · intro hmiss
    rw [hmiss] at hv
    simp only [Bool.false_eq_true, if_false, Bool.and_eq_true, Option.isNone_iff_eq_none] at hv
    exact hv

/-- C6 witness: the amended theorem applied to a concrete accepted positive
verdict. -/
theorem accepted_verdict_evidence_discipline_witness :
    rule_evaluation_accepted hitVerdictDemo = true ∧
    ((hitVerdictDemo.hit = true → hitVerdictDemo.evidence_quote ≠ [] ∧
        hitVerdictDemo.evidence_message_id.isSome = true ∧
        hitVerdictDemo.evidence_message_order.isSome = true) ∧
      (hitVerdictDemo.hit = false → hitVerdictDemo.evidence_message_id = none ∧
        hitVerdictDemo.evidence_message_order = none)) :=
  ⟨by decide, accepted_verdict_evidence_discipline hitVerdictDemo (by decide)⟩

/-! ## C2 and C9: bundled contract construction -/

/-- Here `contains` is `false` exactly off the member list. -/
lemma contains_eq_false_of_not_mem {α : Type} [BEq α] [LawfulBEq α]
    {l : List α} {a : α} (h : a ∉ l) : l.contains a = false := by
  rw [Bool.eq_false_iff]
  intro hc
  rw [List.contains_iff_exists_mem_beq] at hc
  obtain ⟨x, hx, hbeq⟩ := hc
  have hax : a = x := by simpa using hbeq
  exact h (hax ▸ hx)

/-- The `iff` form of `contains_eq_false_of_not_mem`. -/
lemma contains_eq_false_of_not_mem_iff {α : Type} [BEq α] [LawfulBEq α]
    {l : List α} {a : α} : l.contains a = false ↔ a ∉ l := by
  constructor
  · intro hc hmem
    have hc' : l.contains a = true := by
      rw [List.contains_iff_exists_mem_beq]
      exact ⟨a, hmem, by simp⟩
    rw [hc'] at hc
    cases hc
  · exact contains_eq_false_of_not_mem

/-- On a list of non-blank, trim-invariant, duplicate-free keys,
`normalized_rule_keys` is the identity. -/
lemma normalized_rule_keys_eq_self (R : List String) (hne : R ≠ [])
    (hnd : R.Nodup) (hw : ∀ k ∈ R, pyTrim k = k ∧ k ≠ "") :
    normalized_rule_keys R = .ok R := by
  unfold normalized_rule_keys
  have hmap : R.map pyTrim = R := by
    rw [List.map_congr_left (fun a ha => (hw a ha).1)]
    exact List.map_id R
  have hfil : (R.map pyTrim).filter (fun k => !k.isEmpty) = R := by
    rw [hmap, List.filter_eq_self]
    intro a ha
    have h2 := (hw a ha).2
    rw [Bool.not_eq_true', Bool.eq_false_iff]
    intro hcon
    exact h2 ((String.isEmpty_iff a).mp hcon)
  rw [hfil]
  rw [if_neg (by simpa [List.isEmpty_iff] using hne)]
  rw [if_neg (by rw [Bool.not_eq_true, any_count_eq_false_iff]; exact hnd)]

/-- C2 (counterexample to the claim as stated): the builder trims keys, so
for the duplicate-free non-empty list `[" a"]` the contract's required set is
`["a"]`, not the list's own key `" a"`. -/
theorem bundle_contract_trims_keys :
    build_evaluator_bundle_model [" a"]
      = .ok { kind := .evaluator, fields := ["a"], required := ["a"],
              additionalAllowed := false }
    ∧ (["a"] : List String) ≠ [" a"] := by
  exact ⟨rfl, by decide⟩

/-- C2 (amended): for every non-empty duplicate-free list of non-blank,
already-trimmed rule keys, the evaluator and judge bundled contracts declare
exactly one required field per key, with required set equal to the key list
and undeclared fields forbidden, and strict validation rejects any payload
missing one of the keys or carrying an undeclared field. -/
theorem bundle_contract_required_eq_keys (R : List String) (hne : R ≠ [])
    (hnd : R.Nodup) (hw : ∀ k ∈ R, pyTrim k = k ∧ k ≠ "") :
    build_evaluator_bundle_model R
      = .ok { kind := .evaluator, fields := R, required := R, additionalAllowed := false } ∧
    build_judge_bundle_model R
      = .ok { kind := .judge, fields := R, required := R, additionalAllowed := false } ∧
    ∀ (α : Type) (valueOk : α → Bool) (payload : List (String × α)) (c : BundleContract),
      c.fields = R → c.required = R → c.additionalAllowed = false →
      ((∃ k ∈ R, k ∉ payload.map Prod.fst) ∨ (∃ kv ∈ payload, kv.1 ∉ R)) →
      bundle_accepts c valueOk payload = false := by
  have hnorm := normalized_rule_keys_eq_self R hne hnd hw
  refine ⟨?_, ?_, ?_⟩
  · simp only [build_evaluator_bundle_model, build_bundle_model_cached, hnorm]
  · simp only [build_judge_bundle_model, build_bundle_model_cached, hnorm]
  · intro α valueOk payload c hf hr ha hbad
    unfold bundle_accepts
    rcases hbad with ⟨k, hkR, hkp⟩ | ⟨kv, hkvp, hkvR⟩
    · have hall : c.required.all (fun k => (payload.map Prod.fst).contains k) = false := by
        rw [List.all_eq_false]
        exact ⟨k, by rw [hr]; exact hkR,
          by rw [contains_eq_false_of_not_mem hkp]; simp⟩
      rw [hall]
      simp
    · have hall : payload.all (fun kv => c.fields.contains kv.1 || c.additionalAllowed)
          = false := by
        rw [List.all_eq_false]
        refine ⟨kv, hkvp, ?_⟩
        rw [hf, ha, contains_eq_false_of_not_mem hkvR]
        simp
      rw [hall]
      simp

/-- C2 witness: the amended theorem applied to the registry's own key list. -/
theorem bundle_contract_required_eq_keys_witness :
    (["greeting", "upsell", "empathy"] : List String) ≠ [] ∧
    (["greeting", "upsell", "empathy"] : List String).Nodup ∧
    (build_evaluator_bundle_model ["greeting", "upsell", "empathy"]
        = .ok { kind := .evaluator, fields := ["greeting", "upsell", "empathy"],
                required := ["greeting", "upsell", "empathy"], additionalAllowed := false } ∧
      build_judge_bundle_model ["greeting", "upsell", "empathy"]
        = .ok { kind := .judge, fields := ["greeting", "upsell", "empathy"],
                required := ["greeting", "upsell", "empathy"], additionalAllowed := false } ∧
      ∀ (α : Type) (valueOk : α → Bool) (payload : List (String × α)) (c : BundleContract),
        c.fields = ["greeting", "upsell", "empathy"] →
        c.required = ["greeting", "upsell", "empathy"] → c.additionalAllowed = false →
        ((∃ k ∈ (["greeting", "upsell", "empathy"] : List String), k ∉ payload.map Prod.fst)
            ∨ (∃ kv ∈ payload, kv.1 ∉ (["greeting", "upsell", "empathy"] : List String))) →
        bundle_accepts c valueOk payload = false) :=
  ⟨by decide, by decide,
   bundle_contract_required_eq_keys ["greeting", "upsell", "empathy"]
     (by decide) (by decide) (by decide)⟩

/-- C9 (counterexample to the claim as stated): `["a", " ", " "]` contains a
duplicate key, yet the builder produces a contract (the blank duplicates are
dropped by trimming before the duplicate check). -/
theorem duplicate_blank_keys_accepted :
    ¬ (["a", " ", " "] : List String).Nodup ∧
    build_evaluator_bundle_model ["a", " ", " "]
      = .ok { kind := .evaluator, fields := ["a"], required := ["a"],
              additionalAllowed := false } := by
  exact ⟨by decide, rfl⟩

/-- C9 (amended): building a bundled contract fails with a validation error —
and no contract is produced — when the trimmed non-blank key list is empty
(in particular for an empty or all-blank input list) or contains duplicates. -/
theorem bundle_contract_rejects_empty_or_dup (R : List String)
    (h : ((R.map pyTrim).filter (fun k => !k.isEmpty)) = [] ∨
         ¬ ((R.map pyTrim).filter (fun k => !k.isEmpty)).Nodup) :
    (∃ e, build_evaluator_bundle_model R = .error e) ∧
    (∃ e, build_judge_bundle_model R = .error e) := by
  have hn : ∃ e, normalized_rule_keys R = .error e := by
    unfold normalized_rule_keys
    by_cases hemp : ((R.map pyTrim).filter (fun k => !k.isEmpty)).isEmpty
    · exact ⟨_, by rw [if_pos hemp]⟩
    · rcases h with h | h
      · exact absurd (List.isEmpty_iff.mpr h) (by simpa using hemp)
      · have hdup : (((R.map pyTrim).filter (fun k => !k.isEmpty)).any
            (fun k => decide (1 < ((R.map pyTrim).filter (fun k => !k.isEmpty)).count k)))
              = true := by
          rw [← Bool.ne_false_iff]
          intro hfalse
          exact h ((any_count_eq_false_iff _).mp hfalse)
        exact ⟨_, by rw [if_neg (by simpa using hemp), if_pos hdup]⟩
  obtain ⟨e, he⟩ := hn
  constructor
  · exact ⟨e, by unfold build_evaluator_bundle_model; rw [he]⟩
  · exact ⟨e, by unfold build_judge_bundle_model; rw [he]⟩

/-- C9 witness: the amended theorem applied to an all-blank list and to a
duplicated list. -/
theorem bundle_contract_rejects_empty_or_dup_witness :
    ((((([" "] : List String).map pyTrim).filter (fun k => !k.isEmpty)) = [] ∨
        ¬ (((([" "] : List String).map pyTrim).filter (fun k => !k.isEmpty))).Nodup) ∧
      (∃ e, build_evaluator_bundle_model [" "] = .error e) ∧
      (∃ e, build_judge_bundle_model [" "] = .error e)) ∧
    (((((["a", "a"] : List String).map pyTrim).filter (fun k => !k.isEmpty)) = [] ∨
        ¬ ((((["a", "a"] : List String).map pyTrim).filter (fun k => !k.isEmpty))).Nodup) ∧
      (∃ e, build_evaluator_bundle_model ["a", "a"] = .error e) ∧
      (∃ e, build_judge_bundle_model ["a", "a"] = .error e)) :=
  ⟨⟨Or.inl (by decide), bundle_contract_rejects_empty_or_dup [" "] (Or.inl (by decide))⟩,
   ⟨Or.inr (by decide), bundle_contract_rejects_empty_or_dup ["a", "a"] (Or.inr (by decide))⟩⟩

/-! ## C1: the evidence check of `run_scan` -/

/-- With pairwise-distinct catalog ids, the `seller_by_id` lookup finds
exactly the catalog entry carrying the claimed id. -/
lemma sellerById_eq_some_iff (catalog : List SellerMessageRef)
    (hids : (catalog.map SellerMessageRef.message_id).Nodup)
    (mid : Int) (a : SellerMessageRef) :
    sellerById catalog mid = some a ↔ a ∈ catalog ∧ a.message_id = mid := by
  unfold sellerById
  constructor
  · intro h
    have hmem := List.mem_of_find?_eq_some h
    have hpred := List.find?_some h
    exact ⟨List.mem_reverse.mp hmem, by simpa using hpred⟩
  · rintro ⟨hmem, hid⟩
    cases hfind : catalog.reverse.find? (fun item => item.message_id == mid) with
    | none =>
      have := List.find?_eq_none.mp hfind a (List.mem_reverse.mpr hmem)
      simp [hid] at this
    | some b =>
      have hbmem := List.mem_reverse.mp (List.mem_of_find?_eq_some hfind)
      have hbid : b.message_id = mid := by simpa using List.find?_some hfind
      have hba : b = a := List.inj_on_of_nodup_map hids hbmem hmem (by rw [hbid, hid])
      rw [hba]

/-- The `seller_by_id` lookup misses exactly when no catalog entry carries
the claimed id. -/
lemma sellerById_eq_none_iff (catalog : List SellerMessageRef) (mid : Int) :
    sellerById catalog mid = none ↔ ∀ x ∈ catalog, x.message_id ≠ mid := by
  unfold sellerById
  rw [List.find?_eq_none]
  constructor
  · intro h x hx
    have := h x (List.mem_reverse.mpr hx)
    simpa using this
  · intro h x hx
    have := h x (List.mem_reverse.mp hx)
    simpa using this

/-- A three-way error cascade succeeds exactly when all guards are off. -/
lemma ite_error_ok_iff {c1 c2 c3 : Prop} [Decidable c1] [Decidable c2] [Decidable c3]
    (e1 e2 e3 : String) :
    ((if c1 then (.error e1 : Except String Unit)
      else if c2 then .error e2
      else if c3 then .error e3
      else .ok ()) = .ok ()) ↔ (¬c1 ∧ ¬c2 ∧ ¬c3) := by
  split_ifs <;> simp_all

/-- C1 (counterexample to the claim as stated): the check strips the claimed
quote before the substring test, so a quote with leading whitespace is
accepted although the claimed `evidence_quote` itself is not a substring of
the anchor's stored text. -/
theorem evidence_check_accepts_untrimmed_quote :
    validate_evidence "upsell"
        { hit := true, confidence := 1, reason_code := "next_step_present", reason := [],
          evidence_quote := " Hello".toList, evidence_message_id := some 1,
          evidence_message_order := some 1 }
        [{ message_id := 1, message_order := 1, text := "Hello".toList }] 3 = .ok ()
    ∧ isSubOf " Hello".toList "Hello".toList = false :=
  ⟨rfl, by decide⟩

/-- C1 (amended): for a catalog with distinct message ids, the evidence check
accepts exactly when the claimed anchor id resolves to a seller message of
the conversation whose recorded order equals the claimed order, the
whitespace-trimmed quote is non-empty and an exact substring of that
message's stored text, and — for the greeting rule — the anchor id lies in
the first `greeting_window_max` seller messages; every rejection is a
`schema_error`. -/
theorem evidence_check_ok_iff (rule_key : String) (r : RuleEvaluation)
    (catalog : List SellerMessageRef) (w : Int)
    (hids : (catalog.map SellerMessageRef.message_id).Nodup) :
    (validate_evidence rule_key r catalog w = .ok () ↔
      ∃ mid mor, r.evidence_message_id = some mid ∧ r.evidence_message_order = some mor ∧
        ∃ anchor, anchor ∈ catalog ∧ anchor.message_id = mid ∧ anchor.message_order = mor ∧
          pyStrip r.evidence_quote ≠ [] ∧
          isSubOf (pyStrip r.evidence_quote) anchor.text = true ∧
          (rule_key = "greeting" → mid ∈ greetingWindowIds catalog w)) ∧
    (∀ e, validate_evidence rule_key r catalog w = .error e →
      isPrefOf "schema_error".toList e.toList = true) := by
  constructor
  · rcases hid : r.evidence_message_id with _ | mid
    · simp [validate_evidence, hid]
    · rcases hor : r.evidence_message_order with _ | mor
      · simp [validate_evidence, hid, hor]
      · cases hby : sellerById catalog mid with
        | none =>
          have hnone := (sellerById_eq_none_iff catalog mid).mp hby
          simp only [validate_evidence, hid, hor, hby]
          constructor
          · intro h
            exact absurd h (by simp)
          · rintro ⟨mid', mor', hm, -, anchor, hmem, haid, -⟩
            obtain rfl : mid = mid' := by injection hm
            exact absurd haid (hnone anchor hmem)
        | some anchor =>
          obtain ⟨hamem, haid⟩ := (sellerById_eq_some_iff catalog hids mid anchor).mp hby
          simp only [validate_evidence, hid, hor, hby]
          rw [ite_error_ok_iff]
          constructor
          · rintro ⟨h1, h2, h3⟩
            refine ⟨mid, mor, rfl, rfl, anchor, hamem, haid, not_ne_iff.mp h1, ?_, ?_, ?_⟩
            · intro hq
              refine h2 ?_
              rw [Bool.or_eq_true]
              exact Or.inl (by rw [hq]; rfl)
            · cases hsub : isSubOf (pyStrip r.evidence_quote) anchor.text with
              | false =>
                refine absurd ?_ h2
                rw [Bool.or_eq_true]
                exact Or.inr (by rw [hsub]; rfl)
              | true => rfl
            · intro hrk
              by_contra hnotin
              refine h3 ?_
              rw [Bool.and_eq_true]
              refine ⟨by simp [hrk], ?_⟩
              rw [Bool.not_eq_true']
              exact contains_eq_false_of_not_mem hnotin
          · rintro ⟨mid', mor', hm, hmor, anchor', hmem', haid', horder', hq, hsub, hwin⟩
            obtain rfl : mid = mid' := by injection hm
            obtain rfl : mor = mor' := by injection hmor
            obtain rfl : anchor' = anchor :=
              List.inj_on_of_nodup_map hids hmem' hamem (by rw [haid', haid])
            refine ⟨not_ne_iff.mpr horder', ?_, ?_⟩
            · intro hor2
              rw [Bool.or_eq_true] at hor2
              rcases hor2 with hemp | hnsub
              · exact hq (List.isEmpty_iff.mp hemp)
              · rw [hsub] at hnsub
                exact absurd hnsub (by simp)
            · intro hand
              rw [Bool.and_eq_true] at hand
              obtain ⟨hrk, hnc⟩ := hand
              have hrk' : rule_key = "greeting" := by simpa using hrk
              have hmidin := hwin hrk'
              rw [Bool.not_eq_true'] at hnc
              rw [contains_eq_false_of_not_mem_iff] at hnc
              exact hnc hmidin
  · intro e he
    rcases hid : r.evidence_message_id with _ | mid
    · simp only [validate_evidence, hid] at he
      obtain rfl : _ = e := by simpa using he
      decide
    · rcases hor : r.evidence_message_order with _ | mor
      · simp only [validate_evidence, hid, hor] at he
        obtain rfl : _ = e := by simpa using he
        decide
      · cases hby : sellerById catalog mid with
        | none =>
          simp only [validate_evidence, hid, hor, hby] at he
          obtain rfl : _ = e := by simpa using he
          decide
        | some anchor =>
          simp only [validate_evidence, hid, hor, hby] at he
          split_ifs at he
          · obtain rfl : _ = e := by simpa using he
            decide
          · obtain rfl : _ = e := by simpa using he
            decide
          · obtain rfl : _ = e := by simpa using he
            decide

/-- C1 witness: the amended theorem applied to a concrete catalog and a
greeting verdict anchored in its first seller message. -/
theorem evidence_check_ok_iff_witness :
    (demoCatalog.map SellerMessageRef.message_id).Nodup ∧
    ((validate_evidence "greeting" hitVerdictDemo demoCatalog 3 = .ok () ↔
        ∃ mid mor, hitVerdictDemo.evidence_message_id = some mid ∧
          hitVerdictDemo.evidence_message_order = some mor ∧
          ∃ anchor, anchor ∈ demoCatalog ∧ anchor.message_id = mid ∧
            anchor.message_order = mor ∧
            pyStrip hitVerdictDemo.evidence_quote ≠ [] ∧
            isSubOf (pyStrip hitVerdictDemo.evidence_quote) anchor.text = true ∧
            ("greeting" = "greeting" → mid ∈ greetingWindowIds demoCatalog 3)) ∧
      (∀ e, validate_evidence "greeting" hitVerdictDemo demoCatalog 3 = .error e →
        isPrefOf "schema_error".toList e.toList = true)) :=
  ⟨by decide, evidence_check_ok_iff "greeting" hitVerdictDemo demoCatalog 3 (by decide)⟩

/-! ## C5: canonical-run selection -/

/-- The inner fold step of `minByStarted`. -/
lemma minByStarted_go_spec (l : List RunRow) :
    ∀ a : RunRow,
      ∃ m, l.foldl
          (fun acc r =>
            match acc with
            | none => some r
            | some m => if r.started_at_utc < m.started_at_utc then some r else some m)
          (some a) = some m
        ∧ (m = a ∨ m ∈ l) ∧ m.started_at_utc ≤ a.started_at_utc
        ∧ ∀ r ∈ l, m.started_at_utc ≤ r.started_at_utc := by
  induction l with
  | nil => exact fun a => ⟨a, rfl, Or.inl rfl, le_refl _, by simp⟩
  | cons r t ih =>
    intro a
    simp only [List.foldl_cons]
    by_cases hlt : r.started_at_utc < a.started_at_utc
    · rw [if_pos hlt]
      obtain ⟨m, hm, hmem, hle, hall⟩ := ih r
      refine ⟨m, hm, ?_, le_trans hle hlt.le, ?_⟩
      · rcases hmem with rfl | hmem
        · exact Or.inr (List.mem_cons_self _ _)
        · exact Or.inr (List.mem_cons_of_mem _ hmem)
      · intro x hx
        rcases List.mem_cons.mp hx with rfl | hx
        · exact hle
        · exact hall x hx
    · rw [if_neg hlt]
      obtain ⟨m, hm, hmem, hle, hall⟩ := ih a
      refine ⟨m, hm, ?_, hle, ?_⟩
      · rcases hmem with rfl | hmem
        · exact Or.inl rfl
        · exact Or.inr (List.mem_cons_of_mem _ hmem)
      · intro x hx
        rcases List.mem_cons.mp hx with rfl | hx
        · exact le_trans hle (not_lt.mp hlt)
        · exact hall x hx

/-- Applying `minByStarted` to a non-empty list is a member with minimal timestamp. -/
lemma minByStarted_spec (l : List RunRow) (hne : l ≠ []) :
    ∃ m, minByStarted l = some m ∧ m ∈ l
      ∧ ∀ r ∈ l, m.started_at_utc ≤ r.started_at_utc := by
  cases l with
  | nil => exact absurd rfl hne
  | cons r t =>
    obtain ⟨m, hm, hmem, hle, hall⟩ := minByStarted_go_spec t r
    refine ⟨m, hm, ?_, ?_⟩
    · rcases hmem with rfl | hmem
      · exact List.mem_cons_self _ _
      · exact List.mem_cons_of_mem _ hmem
    · intro x hx
      rcases List.mem_cons.mp hx with rfl | hx
      · exact hle
      · exact hall x hx

/-- Applying `minByStarted` to the empty list gives `none`. -/
lemma minByStarted_nil : minByStarted [] = none := rfl

/-- Specification of the fallback branch of `_canonical_run_for_version`. -/
lemma canonical_fallback_spec (runs : List RunRow) (run_id metrics_version : String) :
    ((∃ r ∈ runs, matchesVersion metrics_version r = true) →
      ∃ row ∈ runs, matchesVersion metrics_version row = true ∧
        canonical_fallback runs run_id metrics_version = (row.run_id, some switchedNote) ∧
        ∀ r ∈ runs, matchesVersion metrics_version r = true →
          row.started_at_utc ≤ r.started_at_utc) ∧
    ((∀ r ∈ runs, matchesVersion metrics_version r = false) →
      canonical_fallback runs run_id metrics_version = (run_id, some fellBackNote)) := by
  constructor
  · rintro ⟨r0, hr0, hr0m⟩
    have hne : runs.filter (matchesVersion metrics_version) ≠ [] := by
      intro hnil
      have := List.mem_filter.mpr ⟨hr0, hr0m⟩
      rw [hnil] at this
      cases this
    obtain ⟨m, hm, hmem, hall⟩ := minByStarted_spec _ hne
    obtain ⟨hmruns, hmmatch⟩ := List.mem_filter.mp hmem
    refine ⟨m, hmruns, hmmatch, ?_, ?_⟩
    · unfold canonical_fallback earliest_matching_run
      rw [hm]
    · intro r hr hrm
      exact hall r (List.mem_filter.mpr ⟨hr, hrm⟩)
  · intro hnone
    have hnil : runs.filter (matchesVersion metrics_version) = [] := by
      rw [List.filter_eq_nil_iff]
      intro r hr
      rw [hnone r hr]
      simp
    unfold canonical_fallback earliest_matching_run
    rw [hnil, minByStarted_nil]

/-- C5: canonical baseline selection.  If the pinned canonical run exists and
its stored tag equals the requested metrics version it is kept with no note;
otherwise, when a successful run with a matching summary tag exists, an
earliest such run is promoted (with a note); only when none exists does the
current run become the canonical run, with an explanatory note. -/
theorem canonical_selection_spec (st : ScanState) (run_id metrics_version : String) :
    (∀ c, get_state st.app_state "canonical_run_id" = some c → c ≠ "" →
      run_metrics_version st.runs (some c) = some metrics_version →
      canonical_run_for_version st run_id metrics_version = (c, none)) ∧
    (pinnedRejected st metrics_version →
      ((∃ r ∈ st.runs, matchesVersion metrics_version r = true) →
        ∃ row ∈ st.runs, matchesVersion metrics_version row = true ∧
          canonical_run_for_version st run_id metrics_version
            = (row.run_id, some switchedNote) ∧
          ∀ r ∈ st.runs, matchesVersion metrics_version r = true →
            row.started_at_utc ≤ r.started_at_utc) ∧
      ((∀ r ∈ st.runs, matchesVersion metrics_version r = false) →
        canonical_run_for_version st run_id metrics_version
          = (run_id, some fellBackNote))) := by
  constructor
  · intro c hc hcne hver
    unfold canonical_run_for_version
    rw [hc]
    dsimp only
    rw [if_pos ⟨hcne, hver⟩]
  · intro hrej
    have hfb : canonical_run_for_version st run_id metrics_version
        = canonical_fallback st.runs run_id metrics_version := by
      unfold canonical_run_for_version
      cases hc : get_state st.app_state "canonical_run_id" with
      | none => rfl
      | some c =>
        dsimp only
        rcases hrej c hc with hce | hver
        · rw [if_neg (by intro h; exact h.1 hce)]
        · rw [if_neg (by intro h; exact hver h.2)]
    rw [hfb]
    exact canonical_fallback_spec st.runs run_id metrics_version

/-- C5 witness: the selection applied to a database whose pinned canonical
run carries the current metrics version. -/
theorem canonical_selection_spec_witness :
    get_state demoRunsState.app_state "canonical_run_id" = some "r1" ∧
    ("r1" : String) ≠ "" ∧
    run_metrics_version demoRunsState.runs (some "r1") = some METRICS_VERSION ∧
    canonical_run_for_version demoRunsState "r9" METRICS_VERSION = ("r1", none) :=
  ⟨by decide, by decide, by decide,
   (canonical_selection_spec demoRunsState "r9" METRICS_VERSION).1 "r1"
     (by decide) (by decide) (by decide)⟩

/-! ## C8: the worst-cells ranking -/

/-- The lexicographic sort key coincides with the claim's description of the
order. -/
lemma cellLE_iff (a b : HeatCell) : cellLE a b ↔ worstCellOrder a b := by
  unfold cellLE cellKey worstCellOrder
  rw [Prod.Lex.le_iff]
  dsimp only [ofLex_toLex]
  rw [Prod.Lex.le_iff]
  dsimp only [ofLex_toLex]
  rw [Prod.Lex.le_iff]
  dsimp only [ofLex_toLex]
  rw [neg_lt_neg_iff, neg_inj]

/-- Every eligible cell carries a positive judged count and originates from a
cell of the grid whose score is non-null. -/
lemma rankedCells_mem_spec (conversation_ids rule_keys : List String)
    (scores : List (List (Option ℚ))) (judged_totals : List (List Int)) :
    ∀ cell ∈ rankedCells conversation_ids rule_keys scores judged_totals,
      0 < cell.judged_total := by
  intro cell hcell
  unfold rankedCells at hcell
  obtain ⟨rowT, -, hrow⟩ := List.mem_flatMap.mp hcell
  obtain ⟨colT, -, hcol⟩ := List.mem_filterMap.mp hrow
  by_cases hj : colT.2.2 ≤ 0
  · rw [if_pos hj] at hcol
    cases hcol
  · rw [if_neg hj] at hcol
    cases hsc : colT.2.1 with
    | none =>
      rw [hsc] at hcol
      cases hcol
    | some s =>
      rw [hsc] at hcol
      obtain rfl : _ = cell := Option.some.inj hcol
      exact lt_of_not_le hj

/-- C8: the worst-cells ranking contains only eligible cells (non-null score,
positive judged count), is sorted by ascending score, then descending judged
count, then conversation id, then rule key, and is the unique such list: any
permutation of the eligible cells sorted in this order yields the same
truncated ranking. -/
theorem worst_cells_ranking_spec (conversation_ids rule_keys : List String)
    (scores : List (List (Option ℚ))) (judged_totals : List (List Int)) (limit : Int)
    (_hs : scores.length = conversation_ids.length)
    (_hj : judged_totals.length = conversation_ids.length)
    (_hrs : ∀ row ∈ scores, row.length = rule_keys.length)
    (_hrj : ∀ row ∈ judged_totals, row.length = rule_keys.length) :
    (∀ cell ∈ worst_heatmap_cells conversation_ids rule_keys scores judged_totals limit,
      cell ∈ rankedCells conversation_ids rule_keys scores judged_totals ∧
        0 < cell.judged_total) ∧
    List.Sorted worstCellOrder
      (worst_heatmap_cells conversation_ids rule_keys scores judged_totals limit) ∧
    (∀ l : List HeatCell,
      l.Perm (rankedCells conversation_ids rule_keys scores judged_totals) →
      List.Sorted worstCellOrder l →
      worst_heatmap_cells conversation_ids rule_keys scores judged_totals limit
        = l.take (max 0 limit).toNat) := by
  refine ⟨?_, ?_, ?_⟩
  · intro cell hcell
    have hmem : cell ∈ List.insertionSort cellLE
        (rankedCells conversation_ids rule_keys scores judged_totals) :=
      List.take_subset _ _ hcell
    have hranked : cell ∈ rankedCells conversation_ids rule_keys scores judged_totals :=
      (List.perm_insertionSort cellLE _).mem_iff.mp hmem
    exact ⟨hranked,
      rankedCells_mem_spec conversation_ids rule_keys scores judged_totals cell hranked⟩
  · have hsorted : List.Sorted cellLE (List.insertionSort cellLE
        (rankedCells conversation_ids rule_keys scores judged_totals)) :=
      List.sorted_insertionSort cellLE _
    have htake := List.Pairwise.sublist (List.take_sublist (max 0 limit).toNat _) hsorted
    exact htake.imp (fun h => (cellLE_iff _ _).mp h)
  · intro l hperm hsortl
    have hsortl' : List.Sorted cellLE l := hsortl.imp (fun h => (cellLE_iff _ _).mpr h)
    have hperm' : l.Perm (List.insertionSort cellLE
        (rankedCells conversation_ids rule_keys scores judged_totals)) :=
      hperm.trans (List.perm_insertionSort cellLE _).symm
    have : l = List.insertionSort cellLE
        (rankedCells conversation_ids rule_keys scores judged_totals) :=
      List.eq_of_perm_of_sorted hperm' hsortl' (List.sorted_insertionSort cellLE _)
    rw [worst_heatmap_cells, this]

/-- C8 witness: the ranking specification applied to a concrete 2×1 grid. -/
theorem worst_cells_ranking_spec_witness :
    ([[some (0 : ℚ)], [some 1]] : List (List (Option ℚ))).length
        = (["a", "b"] : List String).length ∧
    ([[1], [2]] : List (List Int)).length = (["a", "b"] : List String).length ∧
    (∀ row ∈ ([[some (0 : ℚ)], [some 1]] : List (List (Option ℚ))),
      row.length = (["k"] : List String).length) ∧
    (∀ row ∈ ([[1], [2]] : List (List Int)), row.length = (["k"] : List String).length) ∧
    ((∀ cell ∈ worst_heatmap_cells ["a", "b"] ["k"] [[some 0], [some 1]] [[1], [2]] 10,
        cell ∈ rankedCells ["a", "b"] ["k"] [[some 0], [some 1]] [[1], [2]] ∧
          0 < cell.judged_total) ∧
      List.Sorted worstCellOrder
        (worst_heatmap_cells ["a", "b"] ["k"] [[some 0], [some 1]] [[1], [2]] 10) ∧
      (∀ l : List HeatCell,
        l.Perm (rankedCells ["a", "b"] ["k"] [[some 0], [some 1]] [[1], [2]]) →
        List.Sorted worstCellOrder l →
        worst_heatmap_cells ["a", "b"] ["k"] [[some 0], [some 1]] [[1], [2]] 10
          = l.take (max 0 (10 : Int)).toNat)) :=
  ⟨by decide, by decide, by decide, by decide,
   worst_cells_ranking_spec ["a", "b"] ["k"] [[some 0], [some 1]] [[1], [2]] 10
     (by decide) (by decide) (by decide) (by decide)⟩

/-! ## Scan-loop lemmas shared by C3, C4 and C10 -/

/-- One conversation step only appends to `llm_calls` and `scan_results`, and
every appended row is tagged with this run and this conversation. -/
lemma processConv_state_shape (oracle : LLMOracle) (rid : String) (conv : Conv)
    (c : Counters) (st : ScanState) :
    ∃ addCalls addRows,
      (processConv oracle rid conv c st).2.2 =
        { st with llm_calls := st.llm_calls ++ addCalls,
                  results := st.results ++ addRows } ∧
      (∀ row ∈ addCalls, row.run_id = rid ∧
        row.conversation_id = conv.conversation_id) ∧
      (∀ row ∈ addRows, row.run_id = rid ∧
        row.conversation_id = conv.conversation_id) := by
  unfold processConv
  by_cases hemp : (seller_message_refs conv.msgs).isEmpty
  · rw [if_pos hemp]
    exact ⟨[], [], by simp, by simp, by simp⟩
  · rw [if_neg hemp]
    cases horc : oracle.evalResp conv.conversation_id with
    | failure isSchema msg =>
      refine ⟨[{ run_id := rid, phase := "evaluator", rule_key := "bundle",
                 conversation_id := conv.conversation_id }], [], ?_, ?_, by simp⟩
      · simp [logCall]
      · intro row hrow
        rw [List.mem_singleton] at hrow
        exact ⟨by rw [hrow], by rw [hrow]⟩
    | success eb =>
      cases hval : validateEvidenceForRules all_rules eb (seller_message_refs conv.msgs)
          fixed_scan_policy.greeting_window_max with
      | error e =>
        refine ⟨[{ run_id := rid, phase := "evaluator", rule_key := "bundle",
                   conversation_id := conv.conversation_id }], [], ?_, ?_, by simp⟩
        · simp [logCall, hval]
        · intro row hrow
          rw [List.mem_singleton] at hrow
          exact ⟨by rw [hrow], by rw [hrow]⟩
      | ok u =>
        cases u
        cases horj : oracle.judgeResp conv.conversation_id with
        | failure isSchema msg =>
          refine ⟨[{ run_id := rid, phase := "evaluator", rule_key := "bundle",
                     conversation_id := conv.conversation_id },
                   { run_id := rid, phase := "judge", rule_key := "bundle",
                     conversation_id := conv.conversation_id }], [], ?_, ?_, by simp⟩
          · simp [logCall, hval, horj]
          · intro row hrow
            rcases List.mem_cons.mp hrow with rfl | hrow
            · exact ⟨rfl, rfl⟩
            · rw [List.mem_singleton] at hrow
              exact ⟨by rw [hrow], by rw [hrow]⟩
        | success jb =>
          refine ⟨[{ run_id := rid, phase := "evaluator", rule_key := "bundle",
                     conversation_id := conv.conversation_id },
                   { run_id := rid, phase := "judge", rule_key := "bundle",
                     conversation_id := conv.conversation_id }],
                  all_rules.map (fun rule =>
                    mkResultRow rid conv.conversation_id rule.key
                      (eb rule.key) (jb rule.key)), ?_, ?_, ?_⟩
          · simp [logCall, hval, horj]
          · intro row hrow
            rcases List.mem_cons.mp hrow with rfl | hrow
            · exact ⟨rfl, rfl⟩
            · rw [List.mem_singleton] at hrow
              exact ⟨by rw [hrow], by rw [hrow]⟩
          · intro row hrow
            obtain ⟨rule, -, hrule⟩ := List.mem_map.mp hrow
            exact ⟨by rw [← hrule]; rfl, by rw [← hrule]; rfl⟩

/-- The loop only appends to `llm_calls` and `scan_results`, and every
appended row belongs to this run and one of the listed conversations. -/
lemma scanConvsLoop_state_shape (oracle : LLMOracle) (rid : String) :
    ∀ (convs : List Conv) (c : Counters) (st : ScanState),
      ∃ addCalls addRows,
        (scanConvsLoop oracle rid convs c st).2.2 =
          { st with llm_calls := st.llm_calls ++ addCalls,
                    results := st.results ++ addRows } ∧
        (∀ row ∈ addCalls, row.run_id = rid ∧
          row.conversation_id ∈ convs.map Conv.conversation_id) ∧
        (∀ row ∈ addRows, row.run_id = rid ∧
          row.conversation_id ∈ convs.map Conv.conversation_id) := by
  intro convs
  induction convs with
  | nil => exact fun c st => ⟨[], [], by simp [scanConvsLoop], by simp, by simp⟩
  | cons conv rest ih =>
    intro c st
    obtain ⟨a1, r1, hshape1, htag1c, htag1r⟩ := processConv_state_shape oracle rid conv c st
    rcases hp : processConv oracle rid conv c st with ⟨err?, c', st'⟩
    rw [hp] at hshape1
    dsimp only at hshape1
    cases err? with
    | some e =>
      refine ⟨a1, r1, ?_, ?_, ?_⟩
      · simp only [scanConvsLoop, hp]
        exact hshape1
      · intro row hrow
        exact ⟨(htag1c row hrow).1, by rw [(htag1c row hrow).2]; simp⟩
      · intro row hrow
        exact ⟨(htag1r row hrow).1, by rw [(htag1r row hrow).2]; simp⟩
    | none =>
      obtain ⟨a2, r2, hshape2, htag2c, htag2r⟩ := ih c' st'
      refine ⟨a1 ++ a2, r1 ++ r2, ?_, ?_, ?_⟩
      · simp only [scanConvsLoop, hp]
        rw [hshape2, hshape1]
        simp
      · intro row hrow
        rcases List.mem_append.mp hrow with hrow | hrow
        · exact ⟨(htag1c row hrow).1, by rw [(htag1c row hrow).2]; simp⟩
        · exact ⟨(htag2c row hrow).1, by
            have := (htag2c row hrow).2
            simp only [List.map_cons, List.mem_cons]
            exact Or.inr this⟩
      · intro row hrow
        rcases List.mem_append.mp hrow with hrow | hrow
        · exact ⟨(htag1r row hrow).1, by rw [(htag1r row hrow).2]; simp⟩
        · exact ⟨(htag2r row hrow).1, by
            have := (htag2r row hrow).2
            simp only [List.map_cons, List.mem_cons]
            exact Or.inr this⟩

/-- The loop never touches `scan_runs`, `scan_metrics` or `app_state`. -/
lemma scanConvsLoop_other_tables (oracle : LLMOracle) (rid : String)
    (convs : List Conv) (c : Counters) (st : ScanState) :
    (scanConvsLoop oracle rid convs c st).2.2.runs = st.runs ∧
    (scanConvsLoop oracle rid convs c st).2.2.metrics = st.metrics ∧
    (scanConvsLoop oracle rid convs c st).2.2.app_state = st.app_state := by
  obtain ⟨a, r, hshape, -, -⟩ := scanConvsLoop_state_shape oracle rid convs c st
  rw [hshape]
  exact ⟨rfl, rfl, rfl⟩

/-- A conversation step can only raise when the conversation has seller
messages: skipping is never an error. -/
lemma processConv_some_has_seller (oracle : LLMOracle) (rid : String) (conv : Conv)
    (c : Counters) (st : ScanState) (e : String)
    (h : (processConv oracle rid conv c st).1 = some e) :
    (seller_message_refs conv.msgs).isEmpty = false := by
  by_contra hne
  have hemp : (seller_message_refs conv.msgs).isEmpty = true := by
    cases hx : (seller_message_refs conv.msgs).isEmpty
    · exact absurd hx hne
    · rfl
  unfold processConv at h
  rw [if_pos hemp] at h
  simp at h

/-- A loop that raised did so at a conversation with seller messages. -/
lemma scanConvsLoop_some_has_seller (oracle : LLMOracle) (rid : String) :
    ∀ (convs : List Conv) (c : Counters) (st : ScanState) (e : String),
      (scanConvsLoop oracle rid convs c st).1 = some e →
      ∃ cv ∈ convs, (seller_message_refs cv.msgs).isEmpty = false := by
  intro convs
  induction convs with
  | nil =>
    intro c st e h
    simp [scanConvsLoop] at h
  | cons conv rest ih =>
    intro c st e h
    rcases hp : processConv oracle rid conv c st with ⟨err?, c', st'⟩
    rw [scanConvsLoop, hp] at h
    cases err? with
    | some e0 =>
      refine ⟨conv, List.mem_cons_self _ _, ?_⟩
      refine processConv_some_has_seller oracle rid conv c st e0 ?_
      rw [hp]
    | none =>
      obtain ⟨cv, hcv, hcvs⟩ := ih c' st' e h
      exact ⟨cv, List.mem_cons_of_mem _ hcv, hcvs⟩

/-- A conversation step that did not raise either skipped the conversation
(no seller messages, state untouched) or completed the full pipeline: one
evaluator call, one judge call, and one result row per rule. -/
lemma processConv_none_spec (oracle : LLMOracle) (rid : String) (conv : Conv)
    (c : Counters) (st : ScanState)
    (h : (processConv oracle rid conv c st).1 = none) :
    ((seller_message_refs conv.msgs).isEmpty = true ∧
      (processConv oracle rid conv c st).2.2 = st) ∨
    ((seller_message_refs conv.msgs).isEmpty = false ∧
      ∃ eb jb, oracle.evalResp conv.conversation_id = CallOutcome.success eb ∧
        oracle.judgeResp conv.conversation_id = CallOutcome.success jb ∧
        (processConv oracle rid conv c st).2.2 =
          { st with
            llm_calls := st.llm_calls ++
              [{ run_id := rid, phase := "evaluator", rule_key := "bundle",
                 conversation_id := conv.conversation_id },
               { run_id := rid, phase := "judge", rule_key := "bundle",
                 conversation_id := conv.conversation_id }],
            results := st.results ++ all_rules.map (fun rule =>
              mkResultRow rid conv.conversation_id rule.key
                (eb rule.key) (jb rule.key)) }) := by
  by_cases hemp : (seller_message_refs conv.msgs).isEmpty
  · left
    refine ⟨hemp, ?_⟩
    unfold processConv
    rw [if_pos hemp]
  · right
    refine ⟨by simpa using hemp, ?_⟩
    cases horc : oracle.evalResp conv.conversation_id with
    | failure isSchema msg =>
      exfalso
      unfold processConv at h
      rw [if_neg hemp] at h
      simp only [horc] at h
      simp at h
    | success eb =>
      cases hval : validateEvidenceForRules all_rules eb (seller_message_refs conv.msgs)
          fixed_scan_policy.greeting_window_max with
      | error e0 =>
        exfalso
        unfold processConv at h
        rw [if_neg hemp] at h
        simp only [horc, hval] at h
        simp at h
      | ok u =>
        cases u
        cases horj : oracle.judgeResp conv.conversation_id with
        | failure isSchema msg =>
          exfalso
          unfold processConv at h
          rw [if_neg hemp] at h
          simp only [horc, hval, horj] at h
          simp at h
        | success jb =>
          refine ⟨eb, jb, rfl, rfl, ?_⟩
          unfold processConv
          rw [if_neg hemp]
          simp only [horc, hval, horj, logCall]
          simp

/-- Every branch of a conversation step bumps `inserted` and `judged`
together. -/
lemma processConv_ins_judged (oracle : LLMOracle) (rid : String) (conv : Conv)
    (c : Counters) (st : ScanState) (h : c.inserted = c.judged) :
    (processConv oracle rid conv c st).2.1.inserted
      = (processConv oracle rid conv c st).2.1.judged := by
  unfold processConv
  by_cases hemp : (seller_message_refs conv.msgs).isEmpty
  · rw [if_pos hemp]
    exact h
  · rw [if_neg hemp]
    cases horc : oracle.evalResp conv.conversation_id with
    | failure isSchema msg =>
      cases isSchema <;> simp [h, horc]
    | success eb =>
      cases hval : validateEvidenceForRules all_rules eb (seller_message_refs conv.msgs)
          fixed_scan_policy.greeting_window_max with
      | error e0 => simp [h, horc, hval]
      | ok u =>
        cases u
        cases horj : oracle.judgeResp conv.conversation_id with
        | failure isSchema msg =>
          cases isSchema <;> simp [h, horc, hval, horj]
        | success jb => simp [h, horc, hval, horj]

/-- Every branch of a conversation step counts a skipped conversation exactly
when it has no seller messages. -/
lemma processConv_skipped (oracle : LLMOracle) (rid : String) (conv : Conv)
    (c : Counters) (st : ScanState) :
    (processConv oracle rid conv c st).2.1.skipped_conversations_without_seller
      = c.skipped_conversations_without_seller
        + (if (seller_message_refs conv.msgs).isEmpty then 1 else 0) := by
  unfold processConv
  by_cases hemp : (seller_message_refs conv.msgs).isEmpty
  · rw [if_pos hemp]
    simp [hemp]
  · rw [if_neg hemp]
    cases horc : oracle.evalResp conv.conversation_id with
    | failure isSchema msg =>
      cases isSchema <;> simp [hemp, horc]
    | success eb =>
      cases hval : validateEvidenceForRules all_rules eb (seller_message_refs conv.msgs)
          fixed_scan_policy.greeting_window_max with
      | error e0 => simp [hemp, horc, hval]
      | ok u =>
        cases u
        cases horj : oracle.judgeResp conv.conversation_id with
        | failure isSchema msg =>
          cases isSchema <;> simp [hemp, horc, hval, horj]
        | success jb => simp [hemp, horc, hval, horj]

/-- The loop preserves `inserted = judged`. -/
lemma scanConvsLoop_ins_judged (oracle : LLMOracle) (rid : String) :
    ∀ (convs : List Conv) (c : Counters) (st : ScanState), c.inserted = c.judged →
      (scanConvsLoop oracle rid convs c st).2.1.inserted
        = (scanConvsLoop oracle rid convs c st).2.1.judged := by
  intro convs
  induction convs with
  | nil => exact fun c st h => h
  | cons conv rest ih =>
    intro c st h
    have hstep := processConv_ins_judged oracle rid conv c st h
    rcases hp : processConv oracle rid conv c st with ⟨err?, c', st'⟩
    rw [hp] at hstep
    rw [scanConvsLoop, hp]
    cases err? with
    | some e => exact hstep
    | none => exact ih c' st' hstep

/-- On a loop that never raised, the skipped counter grows by exactly the
number of conversations without seller messages. -/
lemma scanConvsLoop_skipped_of_none (oracle : LLMOracle) (rid : String) :
    ∀ (convs : List Conv) (c : Counters) (st : ScanState),
      (scanConvsLoop oracle rid convs c st).1 = none →
      (scanConvsLoop oracle rid convs c st).2.1.skipped_conversations_without_seller
        = c.skipped_conversations_without_seller
          + convs.countP (fun cv => (seller_message_refs cv.msgs).isEmpty) := by
  intro convs
  induction convs with
  | nil => intro c st _; simp [scanConvsLoop]
  | cons conv rest ih =>
    intro c st hnone
    have hstep := processConv_skipped oracle rid conv c st
    rcases hp : processConv oracle rid conv c st with ⟨err?, c', st'⟩
    rw [hp] at hstep
    rw [scanConvsLoop, hp] at hnone ⊢
    cases err? with
    | some e => simp at hnone
    | none =>
      rw [ih c' st' hnone, hstep]
      rw [List.countP_cons]
      by_cases hemp : (seller_message_refs conv.msgs).isEmpty
      · simp [hemp]
        omega
      · simp [hemp]

/-! ## C4: run finalization -/

/-- Applying `finish_run` does not change how many rows carry the run id. -/
lemma finish_run_countP (st : ScanState) (rid status : String) (summary : RunSummary) :
    (finish_run st rid status summary).runs.countP (fun r => r.run_id == rid)
      = st.runs.countP (fun r => r.run_id == rid) := by
  unfold finish_run
  rw [List.countP_map]
  apply List.countP_congr
  intro r _
  by_cases h : r.run_id = rid <;> simp [h]

/-- Every row of the finished table carrying the run id holds the written
status and summary. -/
lemma finish_run_mem (st : ScanState) (rid status : String) (summary : RunSummary)
    (r : RunRow) (hr : r ∈ (finish_run st rid status summary).runs)
    (hrid : r.run_id = rid) :
    r.status = status ∧ r.summary = summary := by
  unfold finish_run at hr
  obtain ⟨r0, -, hupd⟩ := List.mem_map.mp hr
  by_cases h0 : r0.run_id == rid
  · rw [if_pos h0] at hupd
    rw [← hupd]
    exact ⟨rfl, rfl⟩
  · rw [if_neg h0] at hupd
    rw [← hupd] at hrid
    exact absurd (by simp [hrid]) h0

/-- C4: for a fresh run id, `run_scan` leaves exactly one run row with this
id, never in status `running`: `success` with no recorded error exactly when
it returns normally, `failed` with the exception text recorded in the summary
whenever it raises. -/
theorem run_scan_finalizes_run (oracle : LLMOracle) (run_id model : String)
    (convs : List Conv) (st0 : ScanState)
    (hfresh : ∀ r ∈ st0.runs, r.run_id ≠ run_id) :
    ((run_scan oracle run_id model convs st0).2.runs.countP
        (fun r => r.run_id == run_id) = 1) ∧
    ∀ r ∈ (run_scan oracle run_id model convs st0).2.runs, r.run_id = run_id →
      r.status ≠ "running" ∧
      (∀ rid, (run_scan oracle run_id model convs st0).1 = .ok rid →
        r.status = "success" ∧ r.summary.error = none) ∧
      (∀ e, (run_scan oracle run_id model convs st0).1 = .error e →
        r.status = "failed" ∧ r.summary.error = some e) := by
  have hcount1 : (insert_run st0 run_id model).runs.countP (fun r => r.run_id == run_id)
      = 1 := by
    unfold insert_run
    rw [List.countP_append]
    have h0 : st0.runs.countP (fun r => r.run_id == run_id) = 0 :=
      List.countP_eq_zero.mpr (fun r hr => by simp [hfresh r hr])
    rw [h0]
    simp
  have hruns2 := scanConvsLoop_other_tables oracle run_id convs {}
    (insert_run st0 run_id model)
  rcases hl : scanConvsLoop oracle run_id convs {} (insert_run st0 run_id model)
    with ⟨err?, c, st2⟩
  rw [hl] at hruns2
  have hruns2' : st2.runs = (insert_run st0 run_id model).runs := hruns2.1
  unfold run_scan
  dsimp only
  rw [hl]
  cases err? with
  | some e =>
    dsimp only
    refine ⟨by rw [finish_run_countP, hruns2', hcount1], ?_⟩
    intro r hr hrid
    obtain ⟨hst, hsum⟩ := finish_run_mem _ _ _ _ r hr hrid
    refine ⟨by rw [hst]; decide, ?_, ?_⟩
    · intro rid hres
      cases hres
    · intro e' hres
      obtain rfl : e = e' := by injection hres
      rw [hst, hsum]
      exact ⟨rfl, rfl⟩
  | none =>
    dsimp only
    by_cases hcj : c.inserted ≠ c.judged
    · rw [if_pos hcj]
      dsimp only
      refine ⟨by rw [finish_run_countP]; dsimp [compute_metrics]; rw [hruns2', hcount1], ?_⟩
      intro r hr hrid
      obtain ⟨hst, hsum⟩ := finish_run_mem _ _ _ _ r hr hrid
      refine ⟨by rw [hst]; decide, ?_, ?_⟩
      · intro rid hres
        cases hres
      · intro e' hres
        obtain rfl : _ = e' := by injection hres
        rw [hst, hsum]
        exact ⟨rfl, rfl⟩
    · rw [if_neg hcj]
      dsimp only
      refine ⟨by rw [finish_run_countP]; dsimp [compute_metrics]; rw [hruns2', hcount1], ?_⟩
      intro r hr hrid
      obtain ⟨hst, hsum⟩ := finish_run_mem _ _ _ _ r hr hrid
      refine ⟨by rw [hst]; decide, ?_, ?_⟩
      · intro rid hres
        rw [hst, hsum]
        exact ⟨rfl, rfl⟩
      · intro e' hres
        cases hres

/-- C4 witness: the finalization contract applied to a concrete successful
run over an empty database. -/
theorem run_scan_finalizes_run_witness :
    (∀ r ∈ emptyScanState.runs, r.run_id ≠ "scan_demo") ∧
    (((run_scan demoOracle "scan_demo" "gpt" demoConvs emptyScanState).2.runs.countP
        (fun r => r.run_id == "scan_demo") = 1) ∧
      ∀ r ∈ (run_scan demoOracle "scan_demo" "gpt" demoConvs emptyScanState).2.runs,
        r.run_id = "scan_demo" →
        r.status ≠ "running" ∧
        (∀ rid, (run_scan demoOracle "scan_demo" "gpt" demoConvs emptyScanState).1
            = .ok rid → r.status = "success" ∧ r.summary.error = none) ∧
        (∀ e, (run_scan demoOracle "scan_demo" "gpt" demoConvs emptyScanState).1
            = .error e → r.status = "failed" ∧ r.summary.error = some e)) :=
  ⟨fun r hr => absurd hr (List.not_mem_nil r),
   run_scan_finalizes_run demoOracle "scan_demo" "gpt" demoConvs emptyScanState
     (fun r hr => absurd hr (List.not_mem_nil r))⟩

/-! ## C10: `inserted = judged`, full coverage never raises -/

/-- Evaluating `safe_div` of a counter by itself. -/
lemma safe_div_self_nat (n : ℕ) :
    safe_div (n : ℚ) (n : ℚ) = if 0 < n then (1 : ℚ) else 0 := by
  unfold safe_div
  by_cases hn : n = 0
  · subst hn
    simp
  · rw [if_pos (by exact_mod_cast hn)]
    rw [if_pos (Nat.pos_of_ne_zero hn)]
    exact div_self (by exact_mod_cast hn)

/-- C10: within one `run_scan` the counters `inserted` and `judged` always
agree, so the post-scan full-coverage check never raises; on the success path
the run summary's `judge_coverage` is exactly `1` when at least one result
row was inserted and exactly `0` when none were. -/
theorem inserted_eq_judged_invariant (oracle : LLMOracle) (run_id model : String)
    (convs : List Conv) (st0 : ScanState)
    (_hfresh : ∀ r ∈ st0.runs, r.run_id ≠ run_id) :
    ((scanConvsLoop oracle run_id convs {} (insert_run st0 run_id model)).2.1.inserted
      = (scanConvsLoop oracle run_id convs {} (insert_run st0 run_id model)).2.1.judged) ∧
    ((scanConvsLoop oracle run_id convs {} (insert_run st0 run_id model)).1 = none →
      (run_scan oracle run_id model convs st0).1 = .ok run_id ∧
      ∀ r ∈ (run_scan oracle run_id model convs st0).2.runs, r.run_id = run_id →
        r.summary.judge_coverage
          = some (if 0 <
              (scanConvsLoop oracle run_id convs {}
                (insert_run st0 run_id model)).2.1.inserted
            then (1 : ℚ) else 0)) := by
  have hinv := scanConvsLoop_ins_judged oracle run_id convs {}
    (insert_run st0 run_id model) rfl
  refine ⟨hinv, ?_⟩
  intro hnone
  rcases hl : scanConvsLoop oracle run_id convs {} (insert_run st0 run_id model)
    with ⟨err?, c, st2⟩
  rw [hl] at hinv hnone
  obtain rfl : err? = none := hnone
  have hinv' : c.inserted = c.judged := hinv
  unfold run_scan
  dsimp only
  rw [hl]
  dsimp only
  rw [if_neg (by simp [hinv'])]
  refine ⟨rfl, ?_⟩
  intro r hr hrid
  obtain ⟨-, hsum⟩ := finish_run_mem _ _ _ _ r hr hrid
  rw [hsum]
  show some (safe_div (c.judged : ℚ) (c.inserted : ℚ)) = _
  have : (c.judged : ℚ) = (c.inserted : ℚ) := by exact_mod_cast congrArg Nat.cast hinv'.symm
  rw [show safe_div (c.judged : ℚ) (c.inserted : ℚ)
        = safe_div (c.inserted : ℚ) (c.inserted : ℚ) from by rw [hinv']]
  rw [safe_div_self_nat]

/-- C10 witness: the invariant applied to a concrete successful run: two
conversations, one with a seller message, three rules, coverage `1`. -/
theorem inserted_eq_judged_invariant_witness :
    (∀ r ∈ emptyScanState.runs, r.run_id ≠ "scan_demo") ∧
    (((scanConvsLoop demoOracle "scan_demo" demoConvs {}
          (insert_run emptyScanState "scan_demo" "gpt")).2.1.inserted
        = (scanConvsLoop demoOracle "scan_demo" demoConvs {}
            (insert_run emptyScanState "scan_demo" "gpt")).2.1.judged) ∧
      ((scanConvsLoop demoOracle "scan_demo" demoConvs {}
          (insert_run emptyScanState "scan_demo" "gpt")).1 = none →
        (run_scan demoOracle "scan_demo" "gpt" demoConvs emptyScanState).1
          = .ok "scan_demo" ∧
        ∀ r ∈ (run_scan demoOracle "scan_demo" "gpt" demoConvs emptyScanState).2.runs,
          r.run_id = "scan_demo" →
          r.summary.judge_coverage
            = some (if 0 <
                (scanConvsLoop demoOracle "scan_demo" demoConvs {}
                  (insert_run emptyScanState "scan_demo" "gpt")).2.1.inserted
              then (1 : ℚ) else 0))) :=
  ⟨fun r hr => absurd hr (List.not_mem_nil r),
   inserted_eq_judged_invariant demoOracle "scan_demo" "gpt" demoConvs emptyScanState
     (fun r hr => absurd hr (List.not_mem_nil r))⟩

/-! ## C3: one bundled evaluator call and one bundled judge call per
conversation -/

lemma isEvalCall_eq_false_of_cid_ne {rid cid : String} {row : CallLogRow}
    (h : row.conversation_id ≠ cid) : isEvalCall rid cid row = false := by
  simp [isEvalCall, h]

lemma isJudgeCall_eq_false_of_cid_ne {rid cid : String} {row : CallLogRow}
    (h : row.conversation_id ≠ cid) : isJudgeCall rid cid row = false := by
  simp [isJudgeCall, h]

lemma isConvResult_eq_false_of_cid_ne {rid cid : String} {row : ResultRow}
    (h : row.conversation_id ≠ cid) : isConvResult rid cid row = false := by
  simp [isConvResult, h]

/-- Per-conversation call and result-row counts added by a loop that never
raised, for conversations with pairwise-distinct ids: none for a conversation
without seller messages, exactly one evaluator call, one judge call and one
result row per rule otherwise. -/
lemma scanConvsLoop_counts (oracle : LLMOracle) (rid : String) :
    ∀ (convs : List Conv) (c : Counters) (st : ScanState),
      (convs.map Conv.conversation_id).Nodup →
      (scanConvsLoop oracle rid convs c st).1 = none →
      ∀ cv ∈ convs,
        ((scanConvsLoop oracle rid convs c st).2.2.llm_calls.countP
            (isEvalCall rid cv.conversation_id)
          = st.llm_calls.countP (isEvalCall rid cv.conversation_id)
            + (if (seller_message_refs cv.msgs).isEmpty then 0 else 1)) ∧
        ((scanConvsLoop oracle rid convs c st).2.2.llm_calls.countP
            (isJudgeCall rid cv.conversation_id)
          = st.llm_calls.countP (isJudgeCall rid cv.conversation_id)
            + (if (seller_message_refs cv.msgs).isEmpty then 0 else 1)) ∧
        ((scanConvsLoop oracle rid convs c st).2.2.results.countP
            (isConvResult rid cv.conversation_id)
          = st.results.countP (isConvResult rid cv.conversation_id)
            + (if (seller_message_refs cv.msgs).isEmpty then 0
               else all_rules.length)) := by
  intro convs
  induction convs with
  | nil =>
    intro c st _ _ cv hcv
    cases hcv
  | cons conv rest ih =>
    intro c st hnd hnone cv hcv
    have hndc : conv.conversation_id ∉ rest.map Conv.conversation_id ∧
        (rest.map Conv.conversation_id).Nodup := by
      rw [List.map_cons, List.nodup_cons] at hnd
      exact hnd
    rcases hp : processConv oracle rid conv c st with ⟨err?, c', st'⟩
    rw [scanConvsLoop, hp] at hnone ⊢
    cases err? with
    | some e => simp at hnone
    | none =>
      dsimp only at hnone ⊢
      rcases List.mem_cons.mp hcv with rfl | hcvrest
      · -- the target conversation is the head
        have hps := processConv_none_spec oracle rid cv c st (by rw [hp])
        rw [hp] at hps
        dsimp only at hps
        obtain ⟨a2, r2, hshape2, htag2c, htag2r⟩ :=
          scanConvsLoop_state_shape oracle rid rest c' st'
        have hz2c : ∀ p : CallLogRow → Bool,
            (∀ row, row.conversation_id ≠ cv.conversation_id → p row = false) →
            a2.countP p = 0 := by
          intro p hfalse
          refine List.countP_eq_zero.mpr (fun row hrow => ?_)
          have hmem := (htag2c row hrow).2
          have hne : row.conversation_id ≠ cv.conversation_id := by
            intro heq
            exact hndc.1 (heq ▸ hmem)
          simp [hfalse row hne]
        have hz2r : r2.countP (isConvResult rid cv.conversation_id) = 0 := by
          refine List.countP_eq_zero.mpr (fun row hrow => ?_)
          have hmem := (htag2r row hrow).2
          have hne : row.conversation_id ≠ cv.conversation_id := by
            intro heq
            exact hndc.1 (heq ▸ hmem)
          simp [isConvResult_eq_false_of_cid_ne hne]
        rw [hshape2]
        dsimp only
        rw [List.countP_append, List.countP_append, List.countP_append]
        rw [hz2c _ (fun row h => isEvalCall_eq_false_of_cid_ne h),
            hz2c _ (fun row h => isJudgeCall_eq_false_of_cid_ne h), hz2r]
        rcases hps with ⟨hemp, hst⟩ | ⟨hemp, eb, jb, -, -, hst⟩
        · rw [hst, hemp]
          simp
        · rw [hst, hemp]
          dsimp only
          rw [List.countP_append, List.countP_append, List.countP_append]
          refine ⟨?_, ?_, ?_⟩
          · have h1 : ([{ run_id := rid, phase := "evaluator", rule_key := "bundle",
                           conversation_id := cv.conversation_id },
                         { run_id := rid, phase := "judge", rule_key := "bundle",
                           conversation_id := cv.conversation_id }]
                : List CallLogRow).countP (isEvalCall rid cv.conversation_id) = 1 := by
              simp [isEvalCall]
            rw [h1]
            simp
          · have h1 : ([{ run_id := rid, phase := "evaluator", rule_key := "bundle",
                           conversation_id := cv.conversation_id },
                         { run_id := rid, phase := "judge", rule_key := "bundle",
                           conversation_id := cv.conversation_id }]
                : List CallLogRow).countP (isJudgeCall rid cv.conversation_id) = 1 := by
              simp [isJudgeCall]
            rw [h1]
            simp
          · have h1 : (all_rules.map (fun rule =>
                mkResultRow rid cv.conversation_id rule.key
                  (eb rule.key) (jb rule.key))).countP
                  (isConvResult rid cv.conversation_id)
                = (all_rules.map (fun rule =>
                    mkResultRow rid cv.conversation_id rule.key
                      (eb rule.key) (jb rule.key))).length := by
              rw [List.countP_eq_length]
              intro row hrow
              obtain ⟨rule, -, hrule⟩ := List.mem_map.mp hrow
              rw [← hrule]
              simp [isConvResult, mkResultRow]
            rw [List.length_map] at h1
            rw [h1]
            simp
      · -- the target conversation is in the tail
        have hcidne : conv.conversation_id ≠ cv.conversation_id := by
          intro heq
          exact hndc.1 (heq ▸ (List.mem_map_of_mem Conv.conversation_id hcvrest))
        obtain ⟨a1, r1, hshape1, htag1c, htag1r⟩ :=
          processConv_state_shape oracle rid conv c st
        rw [hp] at hshape1
        dsimp only at hshape1
        have hz1c : ∀ p : CallLogRow → Bool,
            (∀ row, row.conversation_id ≠ cv.conversation_id → p row = false) →
            a1.countP p = 0 := by
          intro p hfalse
          refine List.countP_eq_zero.mpr (fun row hrow => ?_)
          have := (htag1c row hrow).2
          simp [hfalse row (by rw [this]; exact hcidne)]
        have hz1r : r1.countP (isConvResult rid cv.conversation_id) = 0 := by
          refine List.countP_eq_zero.mpr (fun row hrow => ?_)
          have := (htag1r row hrow).2
          simp [isConvResult_eq_false_of_cid_ne (show _ ≠ _ by rw [this]; exact hcidne)]
        obtain ⟨he, hj, hr⟩ := ih c' st' hndc.2 hnone cv hcvrest
        rw [hshape1] at he hj hr
        dsimp only at he hj hr
        rw [List.countP_append] at he hj hr
        rw [hz1c _ (fun row h => isEvalCall_eq_false_of_cid_ne h)] at he
        rw [hz1c _ (fun row h => isJudgeCall_eq_false_of_cid_ne h)] at hj
        rw [hz1r] at hr
        rw [hshape1]
        exact ⟨by rw [he]; simp, by rw [hj]; simp, by rw [hr]; simp⟩

lemma finish_run_llm_calls (st : ScanState) (rid status : String) (summary : RunSummary) :
    (finish_run st rid status summary).llm_calls = st.llm_calls := rfl

lemma finish_run_results (st : ScanState) (rid status : String) (summary : RunSummary) :
    (finish_run st rid status summary).results = st.results := rfl

lemma compute_metrics_llm_calls (rid : String) (st : ScanState) :
    (compute_metrics rid st).llm_calls = st.llm_calls := rfl

lemma compute_metrics_results (rid : String) (st : ScanState) :
    (compute_metrics rid st).results = st.results := rfl

/-- C3: with a fresh run id and distinct conversation ids, a run that fails
does so because of a conversation that has seller messages (skipping is never
an error), and a run that completes issued, for every selected conversation:
no calls and no result rows if it has no seller messages (and it is counted
in the skipped counter of the stored summary), otherwise exactly one bundled
evaluator call, exactly one bundled judge call, and one result row per rule —
never one call per rule. -/
theorem run_scan_one_bundled_call_per_conversation (oracle : LLMOracle)
    (run_id model : String) (convs : List Conv) (st0 : ScanState)
    (hnd : (convs.map Conv.conversation_id).Nodup)
    (hfreshCalls : ∀ row ∈ st0.llm_calls, row.run_id ≠ run_id)
    (hfreshResults : ∀ row ∈ st0.results, row.run_id ≠ run_id)
    (_hfreshRuns : ∀ r ∈ st0.runs, r.run_id ≠ run_id) :
    (∀ e, (run_scan oracle run_id model convs st0).1 = .error e →
      ∃ cv ∈ convs, (seller_message_refs cv.msgs).isEmpty = false) ∧
    (∀ rid, (run_scan oracle run_id model convs st0).1 = .ok rid →
      (∀ cv ∈ convs,
        ((seller_message_refs cv.msgs).isEmpty = true →
          (run_scan oracle run_id model convs st0).2.llm_calls.countP
              (isEvalCall run_id cv.conversation_id) = 0 ∧
          (run_scan oracle run_id model convs st0).2.llm_calls.countP
              (isJudgeCall run_id cv.conversation_id) = 0 ∧
          (run_scan oracle run_id model convs st0).2.results.countP
              (isConvResult run_id cv.conversation_id) = 0) ∧
        ((seller_message_refs cv.msgs).isEmpty = false →
          (run_scan oracle run_id model convs st0).2.llm_calls.countP
              (isEvalCall run_id cv.conversation_id) = 1 ∧
          (run_scan oracle run_id model convs st0).2.llm_calls.countP
              (isJudgeCall run_id cv.conversation_id) = 1 ∧
          (run_scan oracle run_id model convs st0).2.results.countP
              (isConvResult run_id cv.conversation_id) = all_rules.length)) ∧
      (∀ r ∈ (run_scan oracle run_id model convs st0).2.runs, r.run_id = run_id →
        r.summary.skipped_conversations_without_seller
          = convs.countP (fun cv => (seller_message_refs cv.msgs).isEmpty))) := by
  have hinv := scanConvsLoop_ins_judged oracle run_id convs {}
    (insert_run st0 run_id model) rfl
  rcases hl : scanConvsLoop oracle run_id convs {} (insert_run st0 run_id model)
    with ⟨err?, c, st2⟩
  rw [hl] at hinv
  have hinv' : c.inserted = c.judged := hinv
  unfold run_scan
  dsimp only
  rw [hl]
  cases err? with
  | some e =>
    dsimp only
    constructor
    · intro e' he'
      refine scanConvsLoop_some_has_seller oracle run_id convs {}
        (insert_run st0 run_id model) e ?_
      rw [hl]
    · intro rid hok
      cases hok
  | none =>
    dsimp only
    rw [if_neg (by simp [hinv'])]
    dsimp only
    constructor
    · intro e he
      cases he
    · intro rid hok
      have hcounts := scanConvsLoop_counts oracle run_id convs {}
        (insert_run st0 run_id model) hnd (by rw [hl])
      rw [hl] at hcounts
      have hskip := scanConvsLoop_skipped_of_none oracle run_id convs {}
        (insert_run st0 run_id model) (by rw [hl])
      rw [hl] at hskip
      have hskip' : c.skipped_conversations_without_seller
          = convs.countP (fun cv => (seller_message_refs cv.msgs).isEmpty) := by
        have h0 := hskip
        dsimp only at h0
        rw [h0]
        simp
      refine ⟨?_, ?_⟩
      · intro cv hcv
        obtain ⟨hev, hjd, hres⟩ := hcounts cv hcv
        dsimp only at hev hjd hres
        have hbase_e : (insert_run st0 run_id model).llm_calls.countP
            (isEvalCall run_id cv.conversation_id) = 0 :=
          List.countP_eq_zero.mpr (fun row hrow =>
            by simp [isEvalCall, hfreshCalls row hrow])
        have hbase_j : (insert_run st0 run_id model).llm_calls.countP
            (isJudgeCall run_id cv.conversation_id) = 0 :=
          List.countP_eq_zero.mpr (fun row hrow =>
            by simp [isJudgeCall, hfreshCalls row hrow])
        have hbase_r : (insert_run st0 run_id model).results.countP
            (isConvResult run_id cv.conversation_id) = 0 :=
          List.countP_eq_zero.mpr (fun row hrow =>
            by simp [isConvResult, hfreshResults row hrow])
        rw [hbase_e] at hev
        rw [hbase_j] at hjd
        rw [hbase_r] at hres
        constructor
        · intro hemp
          rw [hemp] at hev hjd hres
          simp only [if_pos rfl] at hev hjd hres
          exact ⟨by simpa using hev, by simpa using hjd, by simpa using hres⟩
        · intro hemp
          rw [hemp] at hev hjd hres
          simp only [Bool.false_eq_true, if_false] at hev hjd hres
          exact ⟨by simpa using hev, by simpa using hjd, by simpa using hres⟩
      · intro r hr hrid
        obtain ⟨-, hsum⟩ := finish_run_mem _ _ _ _ r hr hrid
        rw [hsum]
        exact hskip'

/-- C3 witness: the per-conversation call contract applied to a concrete run
over two conversations, one of which has no seller messages. -/
theorem run_scan_one_bundled_call_per_conversation_witness :
    (demoConvs.map Conv.conversation_id).Nodup ∧
    ((∀ e, (run_scan demoOracle "scan_demo" "gpt" demoConvs emptyScanState).1
        = .error e → ∃ cv ∈ demoConvs, (seller_message_refs cv.msgs).isEmpty = false) ∧
      (∀ rid, (run_scan demoOracle "scan_demo" "gpt" demoConvs emptyScanState).1
          = .ok rid →
        (∀ cv ∈ demoConvs,
          ((seller_message_refs cv.msgs).isEmpty = true →
            (run_scan demoOracle "scan_demo" "gpt" demoConvs emptyScanState).2.llm_calls.countP
                (isEvalCall "scan_demo" cv.conversation_id) = 0 ∧
            (run_scan demoOracle "scan_demo" "gpt" demoConvs emptyScanState).2.llm_calls.countP
                (isJudgeCall "scan_demo" cv.conversation_id) = 0 ∧
            (run_scan demoOracle "scan_demo" "gpt" demoConvs emptyScanState).2.results.countP
                (isConvResult "scan_demo" cv.conversation_id) = 0) ∧
          ((seller_message_refs cv.msgs).isEmpty = false →
            (run_scan demoOracle "scan_demo" "gpt" demoConvs emptyScanState).2.llm_calls.countP
                (isEvalCall "scan_demo" cv.conversation_id) = 1 ∧
            (run_scan demoOracle "scan_demo" "gpt" demoConvs emptyScanState).2.llm_calls.countP
                (isJudgeCall "scan_demo" cv.conversation_id) = 1 ∧
            (run_scan demoOracle "scan_demo" "gpt" demoConvs emptyScanState).2.results.countP
                (isConvResult "scan_demo" cv.conversation_id) = all_rules.length)) ∧
        (∀ r ∈ (run_scan demoOracle "scan_demo" "gpt" demoConvs emptyScanState).2.runs,
          r.run_id = "scan_demo" →
          r.summary.skipped_conversations_without_seller
            = demoConvs.countP (fun cv => (seller_message_refs cv.msgs).isEmpty)))) :=
  ⟨by decide,
   run_scan_one_bundled_call_per_conversation demoOracle "scan_demo" "gpt" demoConvs
     emptyScanState (by decide)
     (fun row hrow => absurd hrow (List.not_mem_nil row))
     (fun row hrow => absurd hrow (List.not_mem_nil row))
     (fun r hr => absurd hr (List.not_mem_nil r))⟩

end SalesProtocol

